import Mathlib

/-!
zGoBlog: configuration store, request hooks and lifecycle controller

A shallow embedding of `fweb/config.go` (the two-level configuration store with
its typed, defaulting accessors and its loader) and of `app/app.go` (the
`App.Static` and `App.Recover` handlers, `catchExit` and the route table of
`registerHomeHandler`), together with the fragments of the Go standard library
these functions call (`strings.Split`, `strconv.Atoi`, `strconv.ParseBool`,
`fmt.Sprint`, `path.Join`, `json.Unmarshal`).

Conventions.
* Go `string` is Lean `String`; the helpers work on the character list.  All
  separators and digits involved are ASCII, so splitting and parsing by
  character agrees with Go's byte-wise processing.
* Go `int` is the 64-bit signed integer, held as an `Int` in the range
  `[-2^63, 2^63)`.
* A Go map is an association list searched from the front; a nil map is
  `none`.  Reading a nil map yields the zero value, assigning into one panics.
* `Config` holds the section maps by value, which describes the stores in
  which no two section keys share one map; `SharedConfig` holds them by
  reference, as the Go heap does, and is used for the frame of `Set`.
* The receiver `cfg *Config` is a valid pointer, as `NewConfig` returns it; the
  store it points to may be the nil map.
* `float64` values are kept as their IEEE-754 bit pattern; the two library
  routines that interpret them (`strconv.ParseFloat`, and the `%v` formatting
  of a float) are parameters, collected in `FloatLib`.
-/

set_option autoImplicit false

/-! ## Go strings -/

/-- Split a character list at every occurrence of `sep`; the result is never empty. -/
def splitChars (sep : Char) : List Char → List (List Char)
  | [] => [[]]
  | c :: cs =>
    match splitChars sep cs with
    | [] => [[]]
    | h :: t => if c = sep then [] :: h :: t else (c :: h) :: t

/-- Go `strings.Split(s, sep)` for a one-character separator. -/
def stringsSplit (s : String) (sep : Char) : List String :=
  (splitChars sep s.data).map String.mk

/-- Go `strings.HasPrefix(s, p)`. -/
def stringsHasPrefix (s p : String) : Bool :=
  p.data.isPrefixOf s.data

/-- Go `strings.TrimPrefix(s, p)`: `s` without the leading `p`, or `s` itself. -/
def stringsTrimPrefix (s p : String) : String :=
  if p.data.isPrefixOf s.data then String.mk (s.data.drop p.data.length) else s

/-- Substring test on character lists. -/
def containsChars : List Char → List Char → Bool
  | [], sub => sub.isEmpty
  | c :: s, sub => sub.isPrefixOf (c :: s) || containsChars s sub

/-- Go `strings.Contains(s, substr)`. -/
def stringsContains (s substr : String) : Bool :=
  containsChars s.data substr.data

/-! ## Go maps -/

/-- Go `m[k]` with the comma-ok result: the first binding of `k`, if any. -/
def mapIndex {V : Type} : List (String × V) → String → Option V
  | [], _ => none
  | (k, v) :: rest, key => if k = key then some v else mapIndex rest key

/-- Go `m[k] = v` on a non-nil map: replace the binding of `k`, or add one. -/
def mapAssign {V : Type} : List (String × V) → String → V → List (String × V)
  | [], key, v => [(key, v)]
  | (k, w) :: rest, key, v =>
    if k = key then (key, v) :: rest else (k, w) :: mapAssign rest key v

/-! ## Dynamic values and `fmt.Sprint` -/

/-- A `float64`, as its IEEE-754 binary64 bit pattern. -/
structure Float64 where
  bits : Nat
  deriving DecidableEq, Repr

/-- The `float64` value `+0`. -/
def Float64.zero : Float64 := ⟨0⟩

/-- The two kinds of `strconv.NumError`. -/
inductive NumError where
  | ErrSyntax
  | ErrRange
  deriving DecidableEq, Repr

/-- The floating-point routines of the Go library used by the store. -/
structure FloatLib where
  /-- The call `strconv.ParseFloat(s, 64)`: the value and the error, if any. -/
  ParseFloat : String → Float64 × Option NumError
  /-- The text `fmt.Sprint` gives for a `float64`. -/
  FormatFloat : Float64 → String

/-- The dynamic values (`interface{}`) the store holds: the scalars produced by
the accessors and by JSON decoding, and the nil interface. -/
inductive Value where
  | str (s : String)
  | int (i : Int)
  | float (f : Float64)
  | bool (b : Bool)
  | null
  deriving DecidableEq, Repr

/-- The character of a decimal digit `d < 10`. -/
def digitChar (d : Nat) : Char :=
  Char.ofNat (48 + d)

/-- The decimal digits of `u`, most significant first, as `fmt` writes them:
the last digit is `u % 10` and the rest is the text of `u / 10`, until the
quotient is below 10. -/
def fmtDigits : Nat → Nat → List Char
  | 0, _ => []
  | fuel + 1, u =>
    if u < 10 then [digitChar u] else fmtDigits fuel (u / 10) ++ [digitChar (u % 10)]

/-- The text `fmt` writes for a signed integer (`fmtInteger`, base 10). -/
def fmtInteger (i : Int) : String :=
  if i < 0 then String.mk ('-' :: fmtDigits (i.natAbs + 1) i.natAbs)
  else String.mk (fmtDigits (i.natAbs + 1) i.natAbs)

/-- Go `fmt.Sprint(v)` for one operand. -/
def Sprint (fl : FloatLib) : Value → String
  | .str s => s
  | .int i => fmtInteger i
  | .float f => fl.FormatFloat f
  | .bool b => if b then "true" else "false"
  | .null => "<nil>"

/-! ## `strconv` -/

/-- The largest `uint64`. -/
def maxUint64 : Nat := 2 ^ 64 - 1

/-- The digit loop of `strconv.ParseUint(s, 10, 64)`, started with accumulator
`n`.  A byte that is not a decimal digit is a syntax error with value 0; an
overflow stops the loop at once with the largest value and a range error. -/
def parseUintLoop : List Char → Nat → Nat × Option NumError
  | [], n => (n, none)
  | c :: cs, n =>
    if '0' ≤ c ∧ c ≤ '9' then
      let d := c.toNat - 48
      if n ≥ maxUint64 / 10 + 1 then (maxUint64, some .ErrRange)
      else
        let n1 := (n * 10 + d) % 2 ^ 64
        if n1 < n * 10 ∨ n1 > maxUint64 then (maxUint64, some .ErrRange)
        else parseUintLoop cs n1
    else (0, some .ErrSyntax)

/-- Go `strconv.ParseUint(s, 10, 64)`. -/
def ParseUint (s : List Char) : Nat × Option NumError :=
  if s = [] then (0, some .ErrSyntax) else parseUintLoop s 0

/-- The range step of `strconv.ParseInt(s, 10, 64)` once the magnitude `un` is
known: a magnitude that does not fit is clamped and reported as a range error. -/
def parseIntRange (neg : Bool) (un : Nat) : Int × Option NumError :=
  if neg = false ∧ un ≥ 2 ^ 63 then ((2 : Int) ^ 63 - 1, some .ErrRange)
  else if neg = true ∧ un > 2 ^ 63 then (-(2 : Int) ^ 63, some .ErrRange)
  else if neg then (-(un : Int), none) else ((un : Int), none)

/-- Go `strconv.ParseInt(s, 10, 64)` after the sign has been picked off. -/
def parseIntSigned (neg : Bool) (s : List Char) : Int × Option NumError :=
  match ParseUint s with
  | (_, some .ErrSyntax) => (0, some .ErrSyntax)
  | (un, _) => parseIntRange neg un

/-- Go `strconv.ParseInt(s, 10, 64)`. -/
def ParseInt (s : String) : Int × Option NumError :=
  match s.data with
  | [] => (0, some .ErrSyntax)
  | c :: cs =>
    if c = '+' then parseIntSigned false cs
    else if c = '-' then parseIntSigned true cs
    else parseIntSigned false (c :: cs)

/-- Go `strconv.Atoi(s)` with a 64-bit `int`: `ParseInt(s, 10, 0)`. -/
def Atoi (s : String) : Int × Option NumError :=
  ParseInt s

/-- Go `strconv.ParseBool(str)`. -/
def ParseBool (str : String) : Bool × Option NumError :=
  if str = "1" ∨ str = "t" ∨ str = "T" ∨ str = "true" ∨ str = "TRUE" ∨ str = "True" then
    (true, none)
  else if str = "0" ∨ str = "f" ∨ str = "F" ∨ str = "false" ∨ str = "FALSE"
      ∨ str = "False" then
    (false, none)
  else (false, some .ErrSyntax)

/-! ## The configuration store (`fweb/config.go`) -/

/-- Go `string`.  The store's methods are named `String`, `Int` and `Bool` as in
the source, so their signatures refer to the types through these synonyms. -/
abbrev GoString := String

/-- Go `int` (64-bit). -/
abbrev GoInt := Int

/-- Go `bool`. -/
abbrev GoBool := Bool

/-- One section of the store: `map[string]interface{}`, `none` when nil. -/
abbrev ConfigSection := Option (List (String × Value))

/-- The store, `map[string]map[string]interface{}`; `none` is the nil map. -/
abbrev Config := Option (List (String × ConfigSection))

/-- A run-time panic of the Go program. -/
inductive Panic where
  | nilMapAssign
  deriving DecidableEq, Repr

/-- The expression `(*cfg)[k0][k1]` with its comma-ok result: indexing a nil or
missing map yields nothing. -/
def Config.lookup (cfg : Config) (k0 k1 : GoString) : Option Value :=
  match cfg with
  | none => none
  | some m =>
    match mapIndex m k0 with
    | some (some sec) => mapIndex sec k1
    | _ => none

/-- The method `Config.String`. -/
def Config.String (fl : FloatLib) (cfg : Config) (key : GoString) : GoString :=
  match stringsSplit key '.' with
  | k0 :: k1 :: _ =>
    match Config.lookup cfg k0 k1 with
    | none => ""
    | some v => Sprint fl v
  | _ => ""

/-- The method `Config.Set`.  The assignment into the section panics when the
section is present but is a nil map. -/
def Config.Set (cfg : Config) (key : GoString) (value : Value) : Except Panic Config :=
  match stringsSplit key '.' with
  | k0 :: k1 :: _ =>
    let m : List (GoString × ConfigSection) :=
      match cfg with
      | none => []
      | some m => m
    let m1 : List (GoString × ConfigSection) :=
      match mapIndex m k0 with
      | none => mapAssign m k0 (some [])
      | some _ => m
    match mapIndex m1 k0 with
    | some (some sec) => .ok (some (mapAssign m1 k0 (some (mapAssign sec k1 value))))
    | _ => .error .nilMapAssign
  | _ => .ok cfg

/-- The method `Config.StringOr`: the returned string and the store afterwards. -/
def Config.StringOr (fl : FloatLib) (cfg : Config) (key : GoString) (d : GoString) :
    Except Panic (GoString × Config) :=
  let value := Config.String fl cfg key
  if value = "" then
    match Config.Set cfg key (.str d) with
    | .ok cfg1 => .ok (d, cfg1)
    | .error e => .error e
  else .ok (value, cfg)

/-- The method `Config.Int`. -/
def Config.Int (fl : FloatLib) (cfg : Config) (key : GoString) : GoInt :=
  (Atoi (Config.String fl cfg key)).1

/-- The method `Config.IntOr`: the returned int and the store afterwards. -/
def Config.IntOr (fl : FloatLib) (cfg : Config) (key : GoString) (d : GoInt) :
    Except Panic (GoInt × Config) :=
  let i := Config.Int fl cfg key
  if i = 0 then
    match Config.Set cfg key (.int d) with
    | .ok cfg1 => .ok (d, cfg1)
    | .error e => .error e
  else .ok (i, cfg)

/-- The method `Config.Float`. -/
def Config.Float (fl : FloatLib) (cfg : Config) (key : GoString) : Float64 :=
  (fl.ParseFloat (Config.String fl cfg key)).1

/-- The method `Config.FloatOr`: the returned float and the store afterwards.
The test `f == 0.0` holds for the bit patterns of `+0` and `-0`. -/
def Config.FloatOr (fl : FloatLib) (cfg : Config) (key : GoString) (d : Float64) :
    Except Panic (Float64 × Config) :=
  let f := Config.Float fl cfg key
  if f.bits = 0 ∨ f.bits = 2 ^ 63 then
    match Config.Set cfg key (.float d) with
    | .ok cfg1 => .ok (d, cfg1)
    | .error e => .error e
  else .ok (f, cfg)

/-- The method `Config.Bool`. -/
def Config.Bool (fl : FloatLib) (cfg : Config) (key : GoString) : GoBool :=
  (ParseBool (Config.String fl cfg key)).1

/-- A sample of the floating-point routines: `ParseFloat` rejects every text but
`"0"` and `"1"`, and the three values `0`, `1`, `0.5` are formatted as Go does. -/
def sampleFloatLib : FloatLib where
  ParseFloat := fun s =>
    if s = "0" then (⟨0⟩, none)
    else if s = "1" then (⟨0x3FF0000000000000⟩, none)
    else (⟨0⟩, some .ErrSyntax)
  FormatFloat := fun f =>
    if f.bits = 0 then "0"
    else if f.bits = 0x3FF0000000000000 then "1"
    else if f.bits = 0x3FE0000000000000 then "0.5"
    else "NaN"

/-! ## Auxiliary views of the store, used to state what `Set` does -/

/-- The section map `(*cfg)[k0]` with its comma-ok result; a nil store has no section. -/
def Config.sectionOf (cfg : Config) (k0 : GoString) : Option ConfigSection :=
  match cfg with
  | none => none
  | some m => mapIndex m k0

/-- The store after a successful `Set` of `k0.k1`: the section `k0`, created
empty when absent, receives the binding of `k1`. -/
def Config.written (cfg : Config) (k0 k1 : GoString) (value : Value) : Config :=
  match Config.sectionOf cfg k0 with
  | some (some sec) => some (mapAssign (cfg.getD []) k0 (some (mapAssign sec k1 value)))
  | _ => some (mapAssign (cfg.getD []) k0 (some [(k1, value)]))

/-! ## `path.Join` -/

/-- The element loop of `path.Clean`.  `out` holds the elements written so far,
the last one first.  An empty element and `.` are dropped; `..` removes the
last element written when there is one to back up over, is kept when the path
is not rooted and nothing but `..` elements has been written, and is dropped
at the root; any other element is written. -/
def cleanElems (rooted : Bool) : List (List Char) → List (List Char) → List (List Char)
  | [], out => out
  | e :: es, out =>
    if e = [] ∨ e = ['.'] then cleanElems rooted es out
    else if e = ['.', '.'] then
      match out with
      | o :: os =>
        if o = ['.', '.'] then cleanElems rooted es (e :: out)
        else cleanElems rooted es os
      | [] => if rooted then cleanElems rooted es [] else cleanElems rooted es [e]
    else cleanElems rooted es (e :: out)

/-- Go `path.Clean(path)`. -/
def pathClean (path : String) : String :=
  if path = "" then "."
  else
    let rooted : Bool := path.data.head? = some '/'
    let out := (cleanElems rooted (splitChars '/' path.data) []).reverse
    if rooted then String.mk ('/' :: List.intercalate ['/'] out)
    else if out = [] then "."
    else String.mk (List.intercalate ['/'] out)

/-- Go `path.Join(elem...)`: the elements from the first non-empty one on,
joined by slashes and cleaned; the empty string when all are empty. -/
def pathJoin (elem : List String) : String :=
  match elem.dropWhile (fun e => decide (e = "")) with
  | [] => ""
  | es => pathClean (String.mk (List.intercalate ['/'] (es.map String.data)))

/-! ## The static interceptor (`app/app.go`) -/

/-- The per-request state `fweb.Context`, with the fields the hooks read and write. -/
structure Context where
  Url : String
  Ext : String
  Status : Int
  IsEnd : Bool
  Body : String
  deriving DecidableEq, Repr

/-- Modelled from the spec: the method `Context.End` of `fweb`, whose source
file is not among the sources; by the spec it marks the Context complete. -/
def Context.End (context : Context) : Context :=
  { context with IsEnd := true }

/-- The part of `os.FileInfo` the interceptor reads. -/
structure FileInfo where
  IsDir : Bool
  deriving DecidableEq, Repr

/-- What the interceptor leaves behind: the Context, and the file name handed
to `http.ServeFile` when the file was served. -/
structure StaticResult where
  context : Context
  served : Option String
  deriving DecidableEq, Repr

/-- The built-in value of `staticFileSuffix`. -/
def staticFileSuffix : String :=
  ".css,.js,.jpg,.jpeg,.png,.gif,.ico,.xml,.zip,.txt,.html,.otf,.svg,.eot,.woff,.ttf,.doc,.ppt,.xls,.docx,.pptx,.xlsx,.xsl"

/-- The name the interceptor resolves the request to: the Url without its
leading slash, and `favicon.ico` moved under the static root. -/
def staticUrl (fl : FloatLib) (cfg : Config) (context : Context) : String :=
  let static := Config.String fl cfg "app.static_dir"
  let url := stringsTrimPrefix context.Url "/"
  if url = "favicon.ico" then pathJoin [static, url] else url

/-- The handler registered with `App.Static`.  `suffix` is the current value of
the variable `staticFileSuffix`; `stat` is `os.Stat`, giving nothing on an error. -/
def StaticHandler (fl : FloatLib) (cfg : Config) (suffix : String)
    (stat : String → Option FileInfo) (context : Context) : StaticResult :=
  let static := Config.String fl cfg "app.static_dir"
  let url := staticUrl fl cfg context
  if stringsHasPrefix url static = false then ⟨context, none⟩
  else if stringsContains suffix context.Ext = false then
    ⟨Context.End { context with Status := 403 }, none⟩
  else
    match stat url with
    | some f =>
      if f.IsDir then ⟨Context.End { context with Status := 403 }, none⟩
      else ⟨{ context with IsEnd := true }, some url⟩
    | none => ⟨{ context with IsEnd := true }, some url⟩

/-! ## The recover hook (`app/app.go`) -/

/-- What the recover hook leaves behind: the Context, and the diagnostic bytes
handed to `LogError` in a goroutine of its own. -/
structure RecoverResult where
  context : Context
  logged : String
  deriving DecidableEq, Repr

/-- The handler registered with `App.Recover`.  `hasTemplate` is the answer of
`theme.Has("error/error.html")`; `render`, given the error text and the stack,
is what rendering the error page through the theme does to the Context;
`debugStack n` is the trace `debug.Stack()` returns at source line `n`. -/
def RecoverHandler (hasTemplate : Bool) (render : String → String → Context → Context)
    (debugStack : Nat → String) (context : Context) : RecoverResult :=
  let logged := context.Body ++ "\n" ++ debugStack 80
  let context :=
    if hasTemplate then render context.Body (debugStack 85) context
    else
      let context := { context with Body := "<pre>" ++ context.Body }
      let context := { context with Body := context.Body ++ "\n" }
      let context := { context with Body := context.Body ++ debugStack 91 }
      { context with Body := context.Body ++ "</pre>" }
  ⟨Context.End context, logged⟩

/-! ## The lifecycle controller (`catchExit`) -/

/-- A signal received from the channel. -/
inductive Signal where
  | SIGINT
  | SIGTERM
  | other (n : Nat)
  deriving DecidableEq, Repr

/-- The process as `catchExit` drives it: how many times `model.SyncAll` has
been called, and the exit code once `os.Exit` has been called. -/
structure Process where
  syncAllCalls : Nat
  exitCode : Option Int
  deriving DecidableEq, Repr

/-- One turn of the loop of `catchExit` on a received signal.  A process that
has exited runs no more code.  On `os.Interrupt` or signal 15 the loop calls
`model.SyncAll`, which returns, and then `os.Exit(0)`; any other value leaves
the switch and the loop waits again. -/
def catchExitStep (p : Process) (sig : Signal) : Process :=
  match p.exitCode with
  | some _ => p
  | none =>
    match sig with
    | .SIGINT => { syncAllCalls := p.syncAllCalls + 1, exitCode := some 0 }
    | .SIGTERM => { syncAllCalls := p.syncAllCalls + 1, exitCode := some 0 }
    | .other _ => p

/-- The function `catchExit` on the sequence of signals its channel delivers. -/
def catchExit (signals : List Signal) : Process :=
  signals.foldl catchExitStep ⟨0, none⟩

/-! ## Loading the store (`NewConfig`) -/

/-- The kinds of error `NewConfig` returns. -/
inductive LoadError where
  | readError
  | syntaxError
  | unmarshalTypeError
  deriving DecidableEq, Repr

/-- A JSON value standing where a section is expected, as the decoder into
`map[string]interface{}` sees it: `null`, an object (its members already in
the form decoding into `interface{}` gives them, which cannot fail), or a
value of another kind (number, string, boolean, array). -/
inductive JsonSection where
  | null
  | object (members : List (String × Value))
  | other
  deriving DecidableEq, Repr

/-- A JSON document as the decoder into `Config` sees it. -/
inductive JsonDoc where
  | null
  | object (members : List (String × JsonSection))
  | other
  deriving DecidableEq, Repr

/-- Decoding one member value into a fresh `map[string]interface{}`: the map
element and whether an `UnmarshalTypeError` was recorded.  `null` gives the
nil map; a value of another kind records the error and leaves the nil map. -/
def decodeSection : JsonSection → ConfigSection × Bool
  | .null => (none, false)
  | .object members => (some (members.foldl (fun m kv => mapAssign m kv.1 kv.2) []), false)
  | .other => (none, true)

/-- Decoding the members of the top-level object into the map, in order.  A
recorded type error does not stop the decoding: the member is stored as it
stands and the next one is decoded. -/
def decodeMembers : List (String × JsonSection) → List (String × ConfigSection) → Bool →
    List (String × ConfigSection) × Bool
  | [], m, failed => (m, failed)
  | (k, v) :: rest, m, failed =>
    decodeMembers rest (mapAssign m k (decodeSection v).1) (failed || (decodeSection v).2)

/-- Go `json.Unmarshal(bytes, cfg)`.  `parse` is the scanner of
`encoding/json`, giving nothing for a text that is not valid JSON; such a text
is rejected before anything is decoded.  The error returned after decoding is
the recorded type error, if any. -/
def jsonUnmarshal (parse : String → Option JsonDoc) (bytes : String) (cfg : Config) :
    Config × Option LoadError :=
  match parse bytes with
  | none => (cfg, some .syntaxError)
  | some .null => (none, none)
  | some .other => (cfg, some .unmarshalTypeError)
  | some (.object members) =>
    let r := decodeMembers members (cfg.getD []) false
    (some r.1, if r.2 then some .unmarshalTypeError else none)

/-- The function `NewConfig`: the store and the error it returns.  `readFile`
is `ioutil.ReadFile`, giving nothing on an error. -/
def NewConfig (readFile : String → Option String) (parse : String → Option JsonDoc)
    (fileAbsPath : String) : Config × Option LoadError :=
  match readFile fileAbsPath with
  | none => (none, some .readError)
  | some bytes => jsonUnmarshal parse bytes none

/-- A sample scanner: it knows the text `{"a":{"b":"x"},"c":5,"d":{"e":"y"}}`
and rejects every other text. -/
def sampleParse (bytes : String) : Option JsonDoc :=
  if bytes = "\x7b\"a\":\x7b\"b\":\"x\"\x7d,\"c\":5,\"d\":\x7b\"e\":\"y\"\x7d\x7d" then
    some (.object [("a", .object [("b", .str "x")]), ("c", .other),
      ("d", .object [("e", .str "y")])])
  else none

/-- A sample file system: the file `config.json` holds the text
`{"a":{"b":"x"},"c":5,"d":{"e":"y"}}`, the file `broken.json` the text `{"a":`. -/
def sampleReadFile (name : String) : Option String :=
  if name = "config.json" then
    some "\x7b\"a\":\x7b\"b\":\"x\"\x7d,\"c\":5,\"d\":\x7b\"e\":\"y\"\x7d\x7d"
  else if name = "broken.json" then some "\x7b\"a\":"
  else none

/-! ## The route table (`registerHomeHandler`) -/

/-- The handlers of package `handler` that `registerHomeHandler` registers. -/
inductive Handler where
  | Login
  | Logout
  | ListArticles
  | Article
  | Page
  | Home
  | Comment
  | TagArticles
  | Rss
  | SiteMap
  | Geek
  | TopPage
  deriving DecidableEq, Repr

/-- Modelled from the spec: a route of `fweb`, whose router is not among the
sources; by the spec a registration of a method set, a path pattern with
optional named segments of the form `:name`, and a handler. -/
structure Route where
  methods : List String
  pattern : String
  handler : Handler
  deriving DecidableEq, Repr

/-- Modelled from the spec: `App.Route(methods, pattern, handler)` of `fweb`,
registering the pattern for the comma-separated methods. -/
def AppRoute (methods pattern : String) (handler : Handler) : Route :=
  ⟨stringsSplit methods ',', pattern, handler⟩

/-- Modelled from the spec: `App.Get(pattern, handler)` of `fweb`. -/
def AppGet (pattern : String) (handler : Handler) : Route :=
  ⟨["GET"], pattern, handler⟩

/-- Modelled from the spec: `App.Post(pattern, handler)` of `fweb`. -/
def AppPost (pattern : String) (handler : Handler) : Route :=
  ⟨["POST"], pattern, handler⟩

/-- The routes `registerHomeHandler` registers, in the order of registration. -/
def registerHomeHandler : List Route :=
  [ AppRoute "GET,POST" "/login/" .Login,
    AppGet "/logout/" .Logout,
    AppGet "/articles/" .ListArticles,
    AppGet "/article/:id/:slug" .Article,
    AppGet "/page/:id/:slug" .Page,
    AppGet "/p/:page/" .Home,
    AppPost "/comment/:id/" .Comment,
    AppGet "/tag/:tag/" .TagArticles,
    AppGet "/tag/:tag/p/:page/" .TagArticles,
    AppGet "/feed/" .Rss,
    AppGet "/sitemap" .SiteMap,
    AppGet "/geek/" .Geek,
    AppGet "/:slug" .TopPage,
    AppGet "/" .Home ]

/-- Modelled from the spec: the router of `fweb` is not among the sources; by
the spec the segments of pattern and path align when literal segments are
equal and each `:name` segment binds to the corresponding path component.  The
result is the list of bindings. -/
def matchSegments : List String → List String → Option (List (String × String))
  | [], [] => some []
  | p :: ps, c :: cs =>
    if p.data.head? = some ':' then
      match matchSegments ps cs with
      | some bindings => some ((String.mk p.data.tail, c) :: bindings)
      | none => none
    else if p = c then matchSegments ps cs
    else none
  | _, _ => none

/-- Modelled from the spec: a route matches a request when the method is in
its method set and the segments of pattern and path, split at the slashes,
align. -/
def Route.matches (r : Route) (method path : String) : Option (List (String × String)) :=
  if method ∈ r.methods then
    matchSegments (stringsSplit r.pattern '/') (stringsSplit path '/')
  else none

/-- Modelled from the spec: dispatch goes through the routes in registration
order and the first route that matches wins, giving its handler and the
bindings; when none matches, control passes to the NotFound hook. -/
def dispatch : List Route → String → String → Option (Handler × List (String × String))
  | [], _, _ => none
  | r :: rs, method, path =>
    match r.matches method path with
    | some bindings => some (r.handler, bindings)
    | none => dispatch rs method path

/-! ## The store with its section maps held by reference -/

/-- The store as the Go heap holds it.  A section map is a reference: `outer`
(nil when `none`) binds a section key to the nil map (`none`) or to the
address of a map object, and `maps` gives the contents of the map object at
each address.  Two section keys may hold the same address, as in the Go value
`Config{"a": m, "b": m}`; `Config` above describes the stores in which no two
do. -/
structure SharedConfig where
  outer : Option (List (String × Option Nat))
  maps : Nat → List (String × Value)

/-- The address `make` returns: one that no section key of the store holds. -/
def freshAddress : List (String × Option Nat) → Nat
  | [] => 0
  | (_, some a) :: rest => max (a + 1) (freshAddress rest)
  | (_, none) :: rest => freshAddress rest

/-- The method `Config.String` on the store with shared section maps. -/
def SharedConfig.String (fl : FloatLib) (cfg : SharedConfig) (key : GoString) : GoString :=
  match stringsSplit key '.' with
  | k0 :: k1 :: _ =>
    match cfg.outer with
    | none => ""
    | some m =>
      match mapIndex m k0 with
      | some (some a) =>
        match mapIndex (cfg.maps a) k1 with
        | none => ""
        | some v => Sprint fl v
      | _ => ""
  | _ => ""

/-- The method `Config.Set` on the store with shared section maps: `make`
gives a new, empty map object for an absent section, and the assignment
writes into the map object the section key refers to. -/
def SharedConfig.Set (cfg : SharedConfig) (key : GoString) (value : Value) :
    Except Panic SharedConfig :=
  match stringsSplit key '.' with
  | k0 :: k1 :: _ =>
    let m : List (GoString × Option Nat) :=
      match cfg.outer with
      | none => []
      | some m => m
    let cfg1 : SharedConfig :=
      match mapIndex m k0 with
      | none =>
        ⟨some (mapAssign m k0 (some (freshAddress m))),
          Function.update cfg.maps (freshAddress m) []⟩
      | some _ => ⟨some m, cfg.maps⟩
    match mapIndex (cfg1.outer.getD []) k0 with
    | some (some a) =>
      .ok ⟨cfg1.outer, Function.update cfg1.maps a (mapAssign (cfg1.maps a) k1 value)⟩
    | _ => .error .nilMapAssign
  | _ => .ok cfg

/-- The store by value that a store with shared maps reads as: every section
key with the contents of the map object it refers to. -/
def SharedConfig.view (cfg : SharedConfig) : Config :=
  match cfg.outer with
  | none => none
  | some m => some (m.map fun p => (p.1, p.2.map cfg.maps))

/-- The store `Config{"a": m, "b": m}` with one empty map `m` under two keys. -/
def sampleSharedConfig : SharedConfig :=
  ⟨some [("a", some 0), ("b", some 0)], fun _ => []⟩

/-! ## Lemmas on strings and maps -/

theorem splitChars_ne_nil (sep : Char) (l : List Char) : splitChars sep l ≠ [] := by
  cases l with
  | nil => simp [splitChars]
  | cons c cs =>
    unfold splitChars
    split
    · simp
    · split <;> simp

theorem splitChars_of_not_mem (sep : Char) (l : List Char) (h : sep ∉ l) :
    splitChars sep l = [l] := by
  induction l with
  | nil => rfl
  | cons c cs ih =>
    have hc : c ≠ sep := fun e => h (by simp [e])
    have hcs : sep ∉ cs := fun e => h (by simp [e])
    simp [splitChars, ih hcs, hc]

/-- A key without a dot has a single component. -/
theorem stringsSplit_of_no_dot (key : String) (h : '.' ∉ key.data) :
    stringsSplit key '.' = [key] := by
  simp [stringsSplit, splitChars_of_not_mem _ _ h]

theorem mapIndex_mapAssign_self {V : Type} (m : List (String × V)) (k : String) (v : V) :
    mapIndex (mapAssign m k v) k = some v := by
  induction m with
  | nil => simp [mapAssign, mapIndex]
  | cons p rest ih =>
    obtain ⟨k0, w⟩ := p
    by_cases hk : k0 = k
    · simp [mapAssign, mapIndex, hk]
    · simp [mapAssign, mapIndex, hk, ih]

theorem mapIndex_mapAssign_ne {V : Type} (m : List (String × V)) (k k2 : String) (v : V)
    (h : k ≠ k2) : mapIndex (mapAssign m k v) k2 = mapIndex m k2 := by
  induction m with
  | nil => simp [mapAssign, mapIndex, h]
  | cons p rest ih =>
    obtain ⟨k0, w⟩ := p
    by_cases hk : k0 = k
    · subst hk
      simp [mapAssign, mapIndex, h]
    · by_cases hk2 : k0 = k2
      · subst hk2
        simp [mapAssign, mapIndex, hk]
      · simp [mapAssign, mapIndex, hk, hk2, ih]

theorem mapAssign_mapAssign {V : Type} (m : List (String × V)) (k : String) (v w : V) :
    mapAssign (mapAssign m k v) k w = mapAssign m k w := by
  induction m with
  | nil => simp [mapAssign]
  | cons p rest ih =>
    obtain ⟨k0, u⟩ := p
    by_cases hk : k0 = k
    · simp [mapAssign, hk]
    · simp [mapAssign, hk, ih]

/-! ## Lemmas on the accessors -/

theorem Atoi_empty : Atoi "" = (0, some .ErrSyntax) := rfl

theorem ParseBool_empty : ParseBool "" = (false, some .ErrSyntax) := by decide

/-- The read accessors on a key of fewer than two components. -/
theorem String_of_short_key (fl : FloatLib) (cfg : Config) (key : String)
    (h : stringsSplit key '.' = [key]) : Config.String fl cfg key = "" := by
  simp [Config.String, h]

/-- The read accessors on a key whose entry is missing. -/
theorem String_of_lookup_none (fl : FloatLib) (cfg : Config) (key k0 k1 : String)
    (rest : List String) (hkey : stringsSplit key '.' = k0 :: k1 :: rest)
    (hunset : Config.lookup cfg k0 k1 = none) : Config.String fl cfg key = "" := by
  simp [Config.String, hkey, hunset]

/-- The read accessor on a key whose entry is present. -/
theorem String_of_lookup_some (fl : FloatLib) (cfg : Config) (key k0 k1 : String)
    (rest : List String) (v : Value) (hkey : stringsSplit key '.' = k0 :: k1 :: rest)
    (hset : Config.lookup cfg k0 k1 = some v) : Config.String fl cfg key = Sprint fl v := by
  simp [Config.String, hkey, hset]

/-! ## Claims on reading -/

/-- C1: for every store, the nil one included, and every key `section.name`
whose entry is missing, `String` returns the empty string, `Int` returns 0,
`Float` returns 0 and `Bool` returns false.  The accessors are total functions,
so none of the calls fails.  `strconv.ParseFloat` is a library routine; what is
used of it is that the empty text is a syntax error with value 0. -/
theorem C1_missing_key_reads_zero (fl : FloatLib) (cfg : Config) (key k0 k1 : String)
    (rest : List String)
    (hpf : fl.ParseFloat "" = (Float64.zero, some NumError.ErrSyntax))
    (hkey : stringsSplit key '.' = k0 :: k1 :: rest)
    (hunset : Config.lookup cfg k0 k1 = none) :
    Config.String fl cfg key = "" ∧ Config.Int fl cfg key = 0 ∧
      Config.Float fl cfg key = Float64.zero ∧ Config.Bool fl cfg key = false := by
  have hs := String_of_lookup_none fl cfg key k0 k1 rest hkey hunset
  refine ⟨hs, ?_, ?_, ?_⟩
  · simp [Config.Int, hs, Atoi_empty]
  · simp [Config.Float, hs, hpf]
  · simp [Config.Bool, hs, ParseBool_empty]

/-- C1 at the nil store and the key `a.b`. -/
theorem C1_missing_key_reads_zero_witness :
    Config.String sampleFloatLib none "a.b" = "" ∧ Config.Int sampleFloatLib none "a.b" = 0 ∧
      Config.Float sampleFloatLib none "a.b" = Float64.zero ∧
      Config.Bool sampleFloatLib none "a.b" = false :=
  C1_missing_key_reads_zero sampleFloatLib none "a.b" "a" "b" [] (by decide) (by decide) rfl

/-- C4: on a key without a dot (the empty key included) `Set` leaves the store
as it is, whatever the value, and `String`, `Int`, `Float` and `Bool` return
the empty string, 0, 0 and false. -/
theorem C4_dotless_key_is_noop (fl : FloatLib) (cfg : Config) (key : String) (value : Value)
    (hpf : fl.ParseFloat "" = (Float64.zero, some NumError.ErrSyntax))
    (hkey : '.' ∉ key.data) :
    Config.Set cfg key value = .ok cfg ∧ Config.String fl cfg key = "" ∧
      Config.Int fl cfg key = 0 ∧ Config.Float fl cfg key = Float64.zero ∧
      Config.Bool fl cfg key = false := by
  have hsplit := stringsSplit_of_no_dot key hkey
  have hs := String_of_short_key fl cfg key hsplit
  refine ⟨?_, hs, ?_, ?_, ?_⟩
  · simp [Config.Set, hsplit]
  · simp [Config.Int, hs, Atoi_empty]
  · simp [Config.Float, hs, hpf]
  · simp [Config.Bool, hs, ParseBool_empty]

/-- C4 at the key `server` on a store holding one entry. -/
theorem C4_dotless_key_is_noop_witness :
    Config.Set (some [("app", some [("server", .str "x")])]) "server" (.int 7)
        = .ok (some [("app", some [("server", .str "x")])]) ∧
      Config.String sampleFloatLib (some [("app", some [("server", .str "x")])]) "server" = "" ∧
      Config.Int sampleFloatLib (some [("app", some [("server", .str "x")])]) "server" = 0 ∧
      Config.Float sampleFloatLib (some [("app", some [("server", .str "x")])]) "server"
        = Float64.zero ∧
      Config.Bool sampleFloatLib (some [("app", some [("server", .str "x")])]) "server" = false :=
  C4_dotless_key_is_noop sampleFloatLib _ "server" (.int 7) (by decide) (by decide)

/-! ## Lemmas on `Set` -/

/-- What `Set` does on a key of at least two components: it panics exactly on
a section that is present and nil, and otherwise writes the entry. -/
theorem Set_eq (cfg : Config) (key k0 k1 : String) (rest : List String) (value : Value)
    (hkey : stringsSplit key '.' = k0 :: k1 :: rest) :
    Config.Set cfg key value =
      if Config.sectionOf cfg k0 = some none then .error .nilMapAssign
      else .ok (Config.written cfg k0 k1 value) := by
  cases cfg with
  | none =>
    simp [Config.Set, hkey, Config.sectionOf, Config.written, mapIndex, mapAssign]
  | some m =>
    cases hm : mapIndex m k0 with
    | none =>
      simp [Config.Set, hkey, Config.sectionOf, Config.written, hm,
        mapIndex_mapAssign_self, mapAssign_mapAssign, mapAssign]
    | some sec =>
      cases sec with
      | none => simp [Config.Set, hkey, Config.sectionOf, hm]
      | some s => simp [Config.Set, hkey, Config.sectionOf, Config.written, hm]

theorem lookup_written (cfg : Config) (k0 k1 : String) (value : Value) :
    Config.lookup (Config.written cfg k0 k1 value) k0 k1 = some value := by
  unfold Config.written
  split <;> simp [Config.lookup, mapIndex_mapAssign_self, mapAssign, mapIndex]

theorem sectionOf_written (cfg : Config) (k0 k1 : String) (value : Value) :
    Config.sectionOf (Config.written cfg k0 k1 value) k0 ≠ some none := by
  unfold Config.written
  split <;> simp [Config.sectionOf, mapIndex_mapAssign_self]

theorem written_written (cfg : Config) (k0 k1 : String) (v w : Value) :
    Config.written (Config.written cfg k0 k1 v) k0 k1 w = Config.written cfg k0 k1 w := by
  cases cfg with
  | none =>
    simp [Config.written, Config.sectionOf, mapIndex, mapAssign]
  | some m =>
    cases hm : mapIndex m k0 with
    | none =>
      simp [Config.written, Config.sectionOf, hm, mapIndex_mapAssign_self,
        mapAssign_mapAssign, mapAssign]
    | some sec =>
      cases sec with
      | none =>
        simp [Config.written, Config.sectionOf, hm, mapIndex_mapAssign_self,
          mapAssign_mapAssign, mapAssign]
      | some s =>
        simp [Config.written, Config.sectionOf, hm, mapIndex_mapAssign_self,
          mapAssign_mapAssign]

/-- A successful `Set` produced the written store, from a section that was not nil. -/
theorem Set_ok_iff (cfg cfg1 : Config) (key k0 k1 : String) (rest : List String)
    (value : Value) (hkey : stringsSplit key '.' = k0 :: k1 :: rest) :
    Config.Set cfg key value = .ok cfg1 ↔
      Config.sectionOf cfg k0 ≠ some none ∧ cfg1 = Config.written cfg k0 k1 value := by
  rw [Set_eq cfg key k0 k1 rest value hkey]
  by_cases h : Config.sectionOf cfg k0 = some none
  · simp [h]
  · simp only [h, if_false, ne_eq, not_false_eq_true, true_and]
    constructor
    · intro e
      injection e with e
      exact e.symm
    · intro e
      rw [e]

/-- Where the section is absent or a non-nil map, `Set` stores the value and a
following `String` reads its text back. -/
theorem Set_then_String (fl : FloatLib) (cfg : Config) (key k0 k1 : String)
    (rest : List String) (value : Value)
    (hkey : stringsSplit key '.' = k0 :: k1 :: rest)
    (hsec : Config.sectionOf cfg k0 ≠ some none) :
    Config.Set cfg key value = .ok (Config.written cfg k0 k1 value) ∧
      Config.String fl (Config.written cfg k0 k1 value) key = Sprint fl value := by
  refine ⟨?_, ?_⟩
  · rw [Set_eq cfg key k0 k1 rest value hkey]
    simp [hsec]
  · exact String_of_lookup_some fl _ key k0 k1 rest value hkey (lookup_written cfg k0 k1 value)

/-- Where the section is absent or a non-nil map and the entry is unset,
`StringOr` returns the default and a following `String` returns it too. -/
theorem StringOr_of_unset (fl : FloatLib) (cfg : Config) (key k0 k1 : String)
    (rest : List String) (d : String)
    (hkey : stringsSplit key '.' = k0 :: k1 :: rest)
    (hsec : Config.sectionOf cfg k0 ≠ some none)
    (hunset : Config.lookup cfg k0 k1 = none) :
    Config.StringOr fl cfg key d = .ok (d, Config.written cfg k0 k1 (.str d)) ∧
      Config.String fl (Config.written cfg k0 k1 (.str d)) key = d := by
  have hs := String_of_lookup_none fl cfg key k0 k1 rest hkey hunset
  have hw := Set_then_String fl cfg key k0 k1 rest (.str d) hkey hsec
  refine ⟨?_, ?_⟩
  · simp [Config.StringOr, hs, hw.1]
  · simpa [Sprint] using hw.2

/-! ## Lemmas on `strconv.Atoi` and `fmt` -/

theorem maxUint64_eq : maxUint64 = 18446744073709551615 := by
  norm_num [maxUint64]

theorem parseIntRange_err (neg : Bool) (un : Nat) :
    (parseIntRange neg un).2 ≠ some .ErrSyntax ∧
      ((parseIntRange neg un).2 = some .ErrRange →
        (parseIntRange neg un).1 = 2 ^ 63 - 1 ∨ (parseIntRange neg un).1 = -2 ^ 63) := by
  unfold parseIntRange
  split
  · simp
  · split
    · simp
    · split <;> simp

theorem parseIntSigned_err (neg : Bool) (s : List Char) :
    ((parseIntSigned neg s).2 = some .ErrSyntax → (parseIntSigned neg s).1 = 0) ∧
      ((parseIntSigned neg s).2 = some .ErrRange →
        (parseIntSigned neg s).1 = 2 ^ 63 - 1 ∨ (parseIntSigned neg s).1 = -2 ^ 63) := by
  unfold parseIntSigned
  split
  · simp
  · have h := parseIntRange_err neg ‹Nat›
    exact ⟨fun e => absurd e h.1, h.2⟩

/-- The value `Atoi` returns along with an error: 0 with a syntax error, the
nearest bound of the `int` range with a range error. -/
theorem Atoi_err (s : String) :
    ((Atoi s).2 = some .ErrSyntax → (Atoi s).1 = 0) ∧
      ((Atoi s).2 = some .ErrRange → (Atoi s).1 = 2 ^ 63 - 1 ∨ (Atoi s).1 = -2 ^ 63) := by
  unfold Atoi ParseInt
  split
  · simp
  · split
    · exact parseIntSigned_err _ _
    · split
      · exact parseIntSigned_err _ _
      · exact parseIntSigned_err _ _

theorem digitChar_le (d : Nat) (h : d < 10) :
    '0' ≤ digitChar d ∧ digitChar d ≤ '9' ∧ (digitChar d).toNat - 48 = d ∧
      digitChar d ≠ '+' ∧ digitChar d ≠ '-' := by
  interval_cases d <;> decide

/-- One step of the digit loop on a digit that does not overflow. -/
theorem parseUintLoop_digit (d n : Nat) (cs : List Char) (hd : d < 10)
    (hn : n * 10 + d < 2 ^ 64) :
    parseUintLoop (digitChar d :: cs) n = parseUintLoop cs (n * 10 + d) := by
  obtain ⟨h0, h9, hv, -, -⟩ := digitChar_le d hd
  have hmod : (n * 10 + d) % 2 ^ 64 = n * 10 + d := Nat.mod_eq_of_lt hn
  have h1 : ¬ (n ≥ maxUint64 / 10 + 1) := by
    rw [maxUint64_eq]
    norm_num at hn ⊢
    omega
  have h2 : ¬ (n * 10 + d < n * 10 ∨ n * 10 + d > maxUint64) := by
    rw [maxUint64_eq]
    norm_num at hn ⊢
    omega
  simp only [parseUintLoop, h0, h9, and_self, if_true, hv, h1, if_false, hmod, h2]

theorem parseUintLoop_append (l1 l2 : List Char) (n : Nat) :
    parseUintLoop (l1 ++ l2) n =
      if (parseUintLoop l1 n).2 = none then parseUintLoop l2 (parseUintLoop l1 n).1
      else parseUintLoop l1 n := by
  induction l1 generalizing n with
  | nil => simp [parseUintLoop]
  | cons c cs ih =>
    simp only [List.cons_append, parseUintLoop]
    split
    · split
      · simp
      · split
        · simp
        · exact ih _
    · simp

/-- The digit loop reads back what `fmt` wrote. -/
theorem parseUintLoop_fmtDigits (fuel u : Nat) (hfuel : u < fuel) (hu : u < 2 ^ 64) :
    parseUintLoop (fmtDigits fuel u) 0 = (u, none) := by
  induction fuel generalizing u with
  | zero => omega
  | succ fuel ih =>
    unfold fmtDigits
    by_cases h10 : u < 10
    · simp only [h10, if_true]
      rw [parseUintLoop_digit u 0 [] h10 (by omega)]
      simp [parseUintLoop]
    · simp only [h10, if_false]
      have hq : u / 10 < fuel := by omega
      have hq2 : u / 10 < 2 ^ 64 := by omega
      rw [parseUintLoop_append, ih (u / 10) hq hq2]
      simp only [if_true]
      rw [parseUintLoop_digit (u % 10) (u / 10) [] (Nat.mod_lt _ (by norm_num)) (by omega)]
      simp only [parseUintLoop]
      congr 1
      omega

theorem fmtDigits_head (fuel u : Nat) :
    ∃ d t, d < 10 ∧ fmtDigits (fuel + 1) u = digitChar d :: t := by
  induction fuel generalizing u with
  | zero =>
    unfold fmtDigits
    by_cases h10 : u < 10
    · exact ⟨u, [], h10, by simp [h10]⟩
    · exact ⟨u % 10, [], Nat.mod_lt _ (by norm_num), by simp [h10, fmtDigits]⟩
  | succ fuel ih =>
    unfold fmtDigits
    by_cases h10 : u < 10
    · exact ⟨u, [], h10, by simp [h10]⟩
    · obtain ⟨d, t, hd, ht⟩ := ih (u / 10)
      exact ⟨d, t ++ [digitChar (u % 10)], hd, by simp [h10, ht]⟩

theorem parseIntSigned_fmtDigits (neg : Bool) (u : Nat) (hu : u < 2 ^ 64) :
    parseIntSigned neg (fmtDigits (u + 1) u) = parseIntRange neg u := by
  obtain ⟨d, t, -, ht⟩ := fmtDigits_head u u
  have hne : fmtDigits (u + 1) u ≠ [] := by simp [ht]
  simp [parseIntSigned, ParseUint, hne, parseUintLoop_fmtDigits (u + 1) u (by omega) hu]

theorem parseIntRange_neg (u : Nat) (h : u ≤ 2 ^ 63) :
    parseIntRange true u = (-(u : Int), none) := by
  have h1 : ¬ (u > 2 ^ 63) := by omega
  simp only [parseIntRange, h1, and_false, false_and, if_false, if_true, Bool.true_eq_false]

theorem parseIntRange_pos (u : Nat) (h : u < 2 ^ 63) :
    parseIntRange false u = ((u : Int), none) := by
  have h1 : ¬ (u ≥ 2 ^ 63) := by omega
  simp only [parseIntRange, h1, and_false, false_and, if_false, Bool.false_eq_true]

/-- The decimal text `fmt` writes for an `int` parses back to it without error. -/
theorem Atoi_fmtInteger (i : Int) (hlo : -2 ^ 63 ≤ i) (hhi : i < 2 ^ 63) :
    Atoi (fmtInteger i) = (i, none) := by
  have hu : i.natAbs < 2 ^ 64 := by omega
  obtain ⟨d, t, hd, ht⟩ := fmtDigits_head i.natAbs i.natAbs
  obtain ⟨-, -, -, hplus, hminus⟩ := digitChar_le d hd
  by_cases hneg : i < 0
  · have hdata : (fmtInteger i).data = '-' :: fmtDigits (i.natAbs + 1) i.natAbs := by
      simp [fmtInteger, hneg]
    have hval : -(i.natAbs : Int) = i := by omega
    have hstep : ParseInt (fmtInteger i)
        = parseIntSigned true (fmtDigits (i.natAbs + 1) i.natAbs) := by
      unfold ParseInt
      rw [hdata]
      simp
    rw [Atoi, hstep, parseIntSigned_fmtDigits true _ hu, parseIntRange_neg _ (by omega), hval]
  · have hdata : (fmtInteger i).data = fmtDigits (i.natAbs + 1) i.natAbs := by
      simp [fmtInteger, hneg]
    have hval : (i.natAbs : Int) = i := by omega
    have hstep : ParseInt (fmtInteger i)
        = parseIntSigned false (fmtDigits (i.natAbs + 1) i.natAbs) := by
      unfold ParseInt
      rw [hdata, ht]
      simp [hplus, hminus]
    rw [Atoi, hstep, parseIntSigned_fmtDigits false _ hu, parseIntRange_pos _ (by omega), hval]

/-! ## The value of `Atoi` on a range error -/

theorem parseIntRange_pos_over (u : Nat) (h : 2 ^ 63 ≤ u) :
    parseIntRange false u = (2 ^ 63 - 1, some .ErrRange) := by
  have h1 : u ≥ 2 ^ 63 := h
  simp only [parseIntRange, h1, and_self, if_true]

theorem parseIntRange_neg_over (u : Nat) (h : 2 ^ 63 < u) :
    parseIntRange true u = (-2 ^ 63, some .ErrRange) := by
  have h1 : u > 2 ^ 63 := h
  simp only [parseIntRange, h1, and_true, and_self, if_true, if_false, Bool.true_eq_false,
    false_and]

/-- With a range error `parseIntRange` returns the bound on the side of the sign. -/
theorem parseIntRange_range (neg : Bool) (un : Nat)
    (h : (parseIntRange neg un).2 = some .ErrRange) :
    (parseIntRange neg un).1 = if neg = true then -2 ^ 63 else 2 ^ 63 - 1 := by
  cases neg
  · by_cases h1 : 2 ^ 63 ≤ un
    · rw [parseIntRange_pos_over un h1]
      simp
    · rw [parseIntRange_pos un (by omega)] at h
      simp at h
  · by_cases h1 : 2 ^ 63 < un
    · rw [parseIntRange_neg_over un h1]
      simp
    · rw [parseIntRange_neg un (by omega)] at h
      simp at h

/-- How `ParseInt` uses the result of `ParseUint`. -/
theorem parseIntSigned_eq (neg : Bool) (s : List Char) :
    parseIntSigned neg s =
      if (ParseUint s).2 = some .ErrSyntax then (0, some .ErrSyntax)
      else parseIntRange neg (ParseUint s).1 := by
  unfold parseIntSigned
  split
  · rename_i heq
    simp [heq]
  · rename_i un e hne heq
    have hns : e ≠ some .ErrSyntax := fun c => hne c
    simp [heq, hns]

theorem parseIntSigned_range (neg : Bool) (s : List Char)
    (h : (parseIntSigned neg s).2 = some .ErrRange) :
    (parseIntSigned neg s).1 = if neg = true then -2 ^ 63 else 2 ^ 63 - 1 := by
  rw [parseIntSigned_eq] at h ⊢
  by_cases hs : (ParseUint s).2 = some .ErrSyntax
  · simp [hs] at h
  · simp only [hs, if_false] at h ⊢
    exact parseIntRange_range neg _ h

/-- With a range error `Atoi` returns the bound of the `int` range on the side
of the sign of the text. -/
theorem Atoi_range (s : String) (h : (Atoi s).2 = some .ErrRange) :
    (Atoi s).1 = if s.data.head? = some '-' then -2 ^ 63 else 2 ^ 63 - 1 := by
  unfold Atoi ParseInt at h ⊢
  cases hd : s.data with
  | nil => simp [hd] at h
  | cons c cs =>
    simp only [hd] at h ⊢
    by_cases hplus : c = '+'
    · subst hplus
      simp only [if_true] at h ⊢
      rw [parseIntSigned_range false cs h]
      simp
    · by_cases hminus : c = '-'
      · subst hminus
        simp only [hplus, if_false, if_true] at h ⊢
        rw [parseIntSigned_range true cs h]
        simp
      · simp only [hplus, hminus, if_false] at h ⊢
        rw [parseIntSigned_range false (c :: cs) h]
        simp [hminus]

/-- One step of the digit loop on a digit that overflows. -/
theorem parseUintLoop_digit_over (d n : Nat) (cs : List Char) (hd : d < 10)
    (hover : 2 ^ 64 ≤ n * 10 + d) :
    parseUintLoop (digitChar d :: cs) n = (maxUint64, some .ErrRange) := by
  obtain ⟨h0, h9, hv, -, -⟩ := digitChar_le d hd
  by_cases h1 : n ≥ maxUint64 / 10 + 1
  · simp only [parseUintLoop, h0, h9, and_self, if_true, hv, h1]
  · have h2 : (n * 10 + d) % 2 ^ 64 < n * 10 ∨ (n * 10 + d) % 2 ^ 64 > maxUint64 := by
      left
      rw [maxUint64_eq] at h1
      norm_num at h1 hover ⊢
      omega
    simp only [parseUintLoop, h0, h9, and_self, if_true, hv, h1, if_false, h2]

/-- The digit loop on the decimal text of a number beyond `uint64` reports a
range error. -/
theorem parseUintLoop_fmtDigits_over (fuel u : Nat) (hfuel : u < fuel) (hu : 2 ^ 64 ≤ u) :
    parseUintLoop (fmtDigits fuel u) 0 = (maxUint64, some .ErrRange) := by
  induction fuel generalizing u with
  | zero => omega
  | succ fuel ih =>
    unfold fmtDigits
    have h10 : ¬ u < 10 := by
      norm_num at hu
      omega
    simp only [h10, if_false]
    rw [parseUintLoop_append]
    by_cases hq : 2 ^ 64 ≤ u / 10
    · rw [ih (u / 10) (by omega) hq]
      simp
    · rw [parseUintLoop_fmtDigits fuel (u / 10) (by omega) (by omega)]
      simp only [if_true]
      exact parseUintLoop_digit_over (u % 10) (u / 10) [] (Nat.mod_lt _ (by norm_num))
        (by omega)

/-- The magnitude `ParseInt` works with on the decimal text of `u`: `u` itself
when it fits `uint64`, a range error otherwise; never a syntax error. -/
theorem parseIntSigned_fmtDigits_any (neg : Bool) (u : Nat) :
    parseIntSigned neg (fmtDigits (u + 1) u) =
      parseIntRange neg (if u < 2 ^ 64 then u else maxUint64) := by
  by_cases hu : u < 2 ^ 64
  · simp only [hu, if_true]
    exact parseIntSigned_fmtDigits neg u hu
  · obtain ⟨d, t, -, ht⟩ := fmtDigits_head u u
    have hne : fmtDigits (u + 1) u ≠ [] := by simp [ht]
    simp only [hu, if_false]
    rw [parseIntSigned_eq]
    simp [ParseUint, hne, parseUintLoop_fmtDigits_over (u + 1) u (by omega) (by omega)]

/-- The decimal text of a number of at least `2^63` is a range error for `Atoi`,
read as the largest `int`. -/
theorem Atoi_numeral_over (u : Nat) (hu : 2 ^ 63 ≤ u) :
    Atoi (String.mk (fmtDigits (u + 1) u)) = (2 ^ 63 - 1, some .ErrRange) := by
  obtain ⟨d, t, hd, ht⟩ := fmtDigits_head u u
  obtain ⟨-, -, -, hplus, hminus⟩ := digitChar_le d hd
  have hstep : ParseInt (String.mk (fmtDigits (u + 1) u))
      = parseIntSigned false (fmtDigits (u + 1) u) := by
    unfold ParseInt
    simp only [ht]
    simp [hplus, hminus]
  rw [Atoi, hstep, parseIntSigned_fmtDigits_any]
  apply parseIntRange_pos_over
  split
  · exact hu
  · rw [maxUint64_eq]
    norm_num

/-- A minus sign before the decimal text of a number above `2^63` is a range
error for `Atoi`, read as the smallest `int`. -/
theorem Atoi_negative_numeral_over (u : Nat) (hu : 2 ^ 63 < u) :
    Atoi (String.mk ('-' :: fmtDigits (u + 1) u)) = (-2 ^ 63, some .ErrRange) := by
  have hstep : ParseInt (String.mk ('-' :: fmtDigits (u + 1) u))
      = parseIntSigned true (fmtDigits (u + 1) u) := by
    unfold ParseInt
    simp
  rw [Atoi, hstep, parseIntSigned_fmtDigits_any]
  apply parseIntRange_neg_over
  split
  · exact hu
  · rw [maxUint64_eq]
    norm_num

/-- Where the section is absent or a non-nil map, the `Int` reading is 0 and the
default is a non-zero `int`, two calls of `IntOr` in sequence both return the
default, and the second call leaves the store as the first one left it. -/
theorem IntOr_twice_of_writable (fl : FloatLib) (cfg : Config) (key k0 k1 : String)
    (rest : List String) (d : Int)
    (hkey : stringsSplit key '.' = k0 :: k1 :: rest)
    (hsec : Config.sectionOf cfg k0 ≠ some none)
    (hzero : Config.Int fl cfg key = 0)
    (hd : d ≠ 0) (hlo : -2 ^ 63 ≤ d) (hhi : d < 2 ^ 63) :
    Config.IntOr fl cfg key d = .ok (d, Config.written cfg k0 k1 (.int d)) ∧
      Config.IntOr fl (Config.written cfg k0 k1 (.int d)) key d
        = .ok (d, Config.written cfg k0 k1 (.int d)) := by
  have hw := Set_then_String fl cfg key k0 k1 rest (.int d) hkey hsec
  have hint : Config.Int fl (Config.written cfg k0 k1 (.int d)) key = d := by
    simp [Config.Int, hw.2, Sprint, Atoi_fmtInteger d hlo hhi]
  refine ⟨?_, ?_⟩
  · simp [Config.IntOr, hzero, hw.1]
  · simp [Config.IntOr, hint, hd]

/-! ## Claims on writing and defaulting -/

/-- C2: `StringOr` on an unset key is to return the default and leave it
readable by `String`.  On the store that holds the section `a` as a nil map
(what loading the JSON text `{"a":null}` yields) the entry `a.b` is unset, and
`StringOr("a.b", "x")` panics in `Set` instead of returning `"x"`.  On every
store whose section is absent or not nil the claim holds (`StringOr_of_unset`). -/
theorem C2_StringOr_panics_on_nil_section :
    Config.lookup (some [("a", none)]) "a" "b" = none ∧
      Config.StringOr sampleFloatLib (some [("a", none)]) "a.b" "x"
        = .error .nilMapAssign := by
  constructor <;> rfl

/-- C3: two calls of `IntOr` with a non-zero default are both to return the
default.  On the store that holds the section `a` as a nil map the `Int`
reading of `a.c` is 0, and the first `IntOr("a.c", 5)` panics in `Set`.  On
every store whose section is absent or not nil the claim holds
(`IntOr_twice_of_writable`). -/
theorem C3_IntOr_panics_on_nil_section :
    Config.Int sampleFloatLib (some [("a", none)]) "a.c" = 0 ∧
      Config.IntOr sampleFloatLib (some [("a", none)]) "a.c" 5 = .error .nilMapAssign := by
  constructor <;> rfl

/-- C5: `Set` is to store the value under the key in every store.  On the store
that holds the section `a` as a nil map, `Set("a.b", "x")` finds the section
present, creates no mapping, and panics on the assignment into the nil map.
On every store whose section is absent or not nil the claim holds
(`Set_then_String`). -/
theorem C5_Set_panics_on_nil_section :
    Config.Set (some [("a", none)]) "a.b" (.str "x") = .error .nilMapAssign := by
  rfl

/-- C6, as stated, fails: the text `9223372036854775808` is a decimal numeral
outside the `int` range, `Atoi` reports a range error on it, and `Int` returns
the largest `int`, not 0. -/
theorem C6_range_error_counterexample :
    (Atoi (Config.String sampleFloatLib
        (some [("a", some [("b", .str "9223372036854775808")])]) "a.b")).2
        = some .ErrRange ∧
      Config.Int sampleFloatLib (some [("a", some [("b", .str "9223372036854775808")])]) "a.b"
        = 9223372036854775807 := by
  constructor <;> decide

/-- C6, amended: for every store and every key of at least two components
whose stored value has a text on which `Atoi` reports an error, `Int` returns 0
when the error is a syntax error, and when it is a range error it returns the
bound of the `int` range on the side of the sign: `-2^63` when the text starts
with a minus sign, `2^63 - 1` otherwise.  The decimal text of a number of at
least `2^63` is such a range error and reads as `2^63 - 1`; a minus sign before
the decimal text of a number above `2^63` is one and reads as `-2^63`. -/
theorem C6_parse_failure_value (fl : FloatLib) (cfg : Config) (key k0 k1 : String)
    (rest : List String) (v : Value)
    (hkey : stringsSplit key '.' = k0 :: k1 :: rest)
    (hset : Config.lookup cfg k0 k1 = some v) :
    ((Atoi (Sprint fl v)).2 = some .ErrSyntax → Config.Int fl cfg key = 0) ∧
    ((Atoi (Sprint fl v)).2 = some .ErrRange →
      Config.Int fl cfg key
        = if (Sprint fl v).data.head? = some '-' then -2 ^ 63 else 2 ^ 63 - 1) ∧
    (∀ u : Nat, 2 ^ 63 ≤ u → Sprint fl v = String.mk (fmtDigits (u + 1) u) →
      (Atoi (Sprint fl v)).2 = some .ErrRange ∧ Config.Int fl cfg key = 2 ^ 63 - 1) ∧
    (∀ u : Nat, 2 ^ 63 < u → Sprint fl v = String.mk ('-' :: fmtDigits (u + 1) u) →
      (Atoi (Sprint fl v)).2 = some .ErrRange ∧ Config.Int fl cfg key = -2 ^ 63) := by
  have hs := String_of_lookup_some fl cfg key k0 k1 rest v hkey hset
  simp only [Config.Int, hs]
  refine ⟨(Atoi_err (Sprint fl v)).1, Atoi_range (Sprint fl v), ?_, ?_⟩
  · intro u hu htext
    rw [htext, Atoi_numeral_over u hu]
    exact ⟨rfl, rfl⟩
  · intro u hu htext
    rw [htext, Atoi_negative_numeral_over u hu]
    exact ⟨rfl, rfl⟩

/-- C6, amended, at four stored texts: `abc` (syntax error, read as 0),
`99999999999999999999999x` (range error, read as the largest `int`),
`-9223372036854775809` (range error, read as the smallest `int`), and the
decimal text of `2^63`. -/
theorem C6_parse_failure_value_witness :
    Config.Int sampleFloatLib (some [("a", some [("b", .str "abc")])]) "a.b" = 0 ∧
      Config.Int sampleFloatLib
        (some [("a", some [("b", .str "99999999999999999999999x")])]) "a.b"
        = 9223372036854775807 ∧
      Config.Int sampleFloatLib
        (some [("a", some [("b", .str "-9223372036854775809")])]) "a.b"
        = -9223372036854775808 ∧
      Config.Int sampleFloatLib
        (some [("a", some [("b", .str "9223372036854775808")])]) "a.b"
        = 9223372036854775807 :=
  ⟨(C6_parse_failure_value sampleFloatLib (some [("a", some [("b", .str "abc")])]) "a.b" "a" "b"
      [] (.str "abc") (by decide) (by decide)).1 (by decide),
    (C6_parse_failure_value sampleFloatLib
      (some [("a", some [("b", .str "99999999999999999999999x")])]) "a.b" "a" "b"
      [] (.str "99999999999999999999999x") (by decide) (by decide)).2.1 (by decide),
    (C6_parse_failure_value sampleFloatLib
      (some [("a", some [("b", .str "-9223372036854775809")])]) "a.b" "a" "b"
      [] (.str "-9223372036854775809") (by decide) (by decide)).2.1 (by decide),
    ((C6_parse_failure_value sampleFloatLib
      (some [("a", some [("b", .str "9223372036854775808")])]) "a.b" "a" "b"
      [] (.str "9223372036854775808") (by decide) (by decide)).2.2.1 9223372036854775808
      (by norm_num) (by decide)).2⟩

/-- C7: a key set to the zero value is treated as unset by the defaulting
accessors.  For every store and key of at least two components: once
`Set(key, 0)` has been done, `IntOr(key, d)` returns `d` and the entry then holds
`d`; once `Set(key, "")` has been done, `StringOr(key, d)` returns `d` and the
entry then holds `d`.  Where the key was unset before, the call on the store
without the `Set` returns the same value and ends in the same store. -/
theorem C7_zero_value_is_overwritten (fl : FloatLib) (cfg : Config) (key k0 k1 : String)
    (rest : List String) (hkey : stringsSplit key '.' = k0 :: k1 :: rest) :
    (∀ (cfg1 : Config) (d : Int), Config.Set cfg key (.int 0) = .ok cfg1 →
      ∃ cfg2, Config.IntOr fl cfg1 key d = .ok (d, cfg2) ∧
        Config.lookup cfg2 k0 k1 = some (.int d) ∧
        (Config.lookup cfg k0 k1 = none → Config.IntOr fl cfg key d = .ok (d, cfg2))) ∧
    (∀ (cfg1 : Config) (d : String), Config.Set cfg key (.str "") = .ok cfg1 →
      ∃ cfg2, Config.StringOr fl cfg1 key d = .ok (d, cfg2) ∧
        Config.lookup cfg2 k0 k1 = some (.str d) ∧
        (Config.lookup cfg k0 k1 = none → Config.StringOr fl cfg key d = .ok (d, cfg2))) := by
  constructor
  · intro cfg1 d hset
    obtain ⟨hsec, rfl⟩ := (Set_ok_iff cfg _ key k0 k1 rest _ hkey).1 hset
    refine ⟨Config.written cfg k0 k1 (.int d), ?_, lookup_written cfg k0 k1 _, ?_⟩
    · have hs := String_of_lookup_some fl _ key k0 k1 rest _ hkey
        (lookup_written cfg k0 k1 (.int 0))
      have hz : Atoi (fmtInteger 0) = (0, none) := by decide
      have hw := Set_then_String fl (Config.written cfg k0 k1 (.int 0)) key k0 k1 rest (.int d)
        hkey (sectionOf_written cfg k0 k1 _)
      simp [Config.IntOr, Config.Int, hs, Sprint, hz, hw.1, written_written]
    · intro hunset
      have hs := String_of_lookup_none fl cfg key k0 k1 rest hkey hunset
      have hw := Set_then_String fl cfg key k0 k1 rest (.int d) hkey hsec
      simp [Config.IntOr, Config.Int, hs, Atoi_empty, hw.1]
  · intro cfg1 d hset
    obtain ⟨hsec, rfl⟩ := (Set_ok_iff cfg _ key k0 k1 rest _ hkey).1 hset
    refine ⟨Config.written cfg k0 k1 (.str d), ?_, lookup_written cfg k0 k1 _, ?_⟩
    · have hs := String_of_lookup_some fl _ key k0 k1 rest _ hkey
        (lookup_written cfg k0 k1 (.str ""))
      have hw := Set_then_String fl (Config.written cfg k0 k1 (.str "")) key k0 k1 rest (.str d)
        hkey (sectionOf_written cfg k0 k1 _)
      simp [Config.StringOr, hs, Sprint, hw.1, written_written]
    · intro hunset
      exact (StringOr_of_unset fl cfg key k0 k1 rest d hkey hsec hunset).1

/-- C7 at the key `a.b` on the nil store: after `Set("a.b", 0)` the call
`IntOr("a.b", 7)` returns 7, and after `Set("a.b", "")` the call
`StringOr("a.b", "x")` returns `"x"`. -/
theorem C7_zero_value_is_overwritten_witness :
    (∃ cfg2, Config.IntOr sampleFloatLib (some [("a", some [("b", .int 0)])]) "a.b" 7
        = .ok (7, cfg2) ∧
      Config.lookup cfg2 "a" "b" = some (.int 7) ∧
      (Config.lookup none "a" "b" = none →
        Config.IntOr sampleFloatLib none "a.b" 7 = .ok (7, cfg2))) ∧
    (∃ cfg2, Config.StringOr sampleFloatLib (some [("a", some [("b", .str "")])]) "a.b" "x"
        = .ok ("x", cfg2) ∧
      Config.lookup cfg2 "a" "b" = some (.str "x") ∧
      (Config.lookup none "a" "b" = none →
        Config.StringOr sampleFloatLib none "a.b" "x" = .ok ("x", cfg2))) :=
  ⟨(C7_zero_value_is_overwritten sampleFloatLib none "a.b" "a" "b" [] (by decide)).1
      (some [("a", some [("b", .int 0)])]) 7 rfl,
    (C7_zero_value_is_overwritten sampleFloatLib none "a.b" "a" "b" [] (by decide)).2
      (some [("a", some [("b", .str "")])]) "x" rfl⟩

/-- C8: the defaulting accessors write only on a zero reading.  For every
store, key and default: if `String(key)` is not empty, `StringOr` returns it and
the store is unchanged; if `Int(key)` is not 0, `IntOr` returns it and the store
is unchanged. -/
theorem C8_defaulting_writes_only_on_zero (fl : FloatLib) (cfg : Config) (key : String) :
    (∀ d : String, Config.String fl cfg key ≠ "" →
      Config.StringOr fl cfg key d = .ok (Config.String fl cfg key, cfg)) ∧
    (∀ d : Int, Config.Int fl cfg key ≠ 0 →
      Config.IntOr fl cfg key d = .ok (Config.Int fl cfg key, cfg)) := by
  constructor
  · intro d h
    simp [Config.StringOr, h]
  · intro d h
    simp [Config.IntOr, h]

/-- C8 on a store holding `app.server = "localhost:8888"` and
`app.upload_size = 1024`. -/
theorem C8_defaulting_writes_only_on_zero_witness :
    Config.StringOr sampleFloatLib
        (some [("app", some [("server", .str "localhost:8888"), ("upload_size", .int 1024)])])
        "app.server" "x"
      = .ok ("localhost:8888",
          some [("app", some [("server", .str "localhost:8888"), ("upload_size", .int 1024)])]) ∧
    Config.IntOr sampleFloatLib
        (some [("app", some [("server", .str "localhost:8888"), ("upload_size", .int 1024)])])
        "app.upload_size" 5
      = .ok (1024,
          some [("app", some [("server", .str "localhost:8888"), ("upload_size", .int 1024)])]) :=
  ⟨(C8_defaulting_writes_only_on_zero sampleFloatLib _ "app.server").1 "x" (by decide),
    (C8_defaulting_writes_only_on_zero sampleFloatLib _ "app.upload_size").2 5 (by decide)⟩

/-! ## Claims on the static interceptor -/

/-- A static root that is a prefix of `favicon.ico` is still a prefix of the
name `favicon.ico` is moved to. -/
theorem favicon_under_root (s : String) (h : stringsHasPrefix "favicon.ico" s = true) :
    stringsHasPrefix (pathJoin [s, "favicon.ico"]) s = true := by
  have hp : s.data <+: "favicon.ico".data := List.isPrefixOf_iff_prefix.mp h
  rw [← List.mem_inits] at hp
  obtain ⟨l⟩ := s
  have hl : l ∈ List.inits ['f', 'a', 'v', 'i', 'c', 'o', 'n', '.', 'i', 'c', 'o'] := hp
  simp only [List.inits, List.map, List.mem_cons, List.mem_singleton, List.not_mem_nil,
    or_false] at hl
  rcases hl with h | h | h | h | h | h | h | h | h | h | h | h <;> subst h <;> decide

/-- A request whose stripped path starts with the static root resolves to a
name that starts with the static root. -/
theorem staticUrl_under_root (fl : FloatLib) (cfg : Config) (context : Context)
    (h : stringsHasPrefix (stringsTrimPrefix context.Url "/")
      (Config.String fl cfg "app.static_dir") = true) :
    stringsHasPrefix (staticUrl fl cfg context) (Config.String fl cfg "app.static_dir")
      = true := by
  unfold staticUrl
  by_cases hfav : stringsTrimPrefix context.Url "/" = "favicon.ico"
  · rw [hfav] at h
    simp only [hfav, if_true]
    exact favicon_under_root _ h
  · simpa only [hfav, if_false] using h

/-- A request under the static root whose extension does not occur in the
allow-list text is answered with 403 and terminated, and no file is served. -/
theorem StaticHandler_rejects_ext (fl : FloatLib) (cfg : Config) (suffix : String)
    (stat : String → Option FileInfo) (context : Context)
    (hroot : stringsHasPrefix (staticUrl fl cfg context)
      (Config.String fl cfg "app.static_dir") = true)
    (hext : stringsContains suffix context.Ext = false) :
    StaticHandler fl cfg suffix stat context
      = ⟨Context.End { context with Status := 403 }, none⟩ := by
  simp [StaticHandler, hroot, hext]

/-- C9: an extension that is not an entry of the allow-list is to be rejected
with 403.  The interceptor tests whether the extension occurs anywhere in the
allow-list text: `.htm` is no entry of the built-in list but occurs inside
`.html`, so `/static/page.htm` passes the test, the file is served, and the
Status stays as it was. -/
theorem C9_substring_of_entry_is_served :
    (".htm" ∉ stringsSplit staticFileSuffix ',') ∧
      StaticHandler sampleFloatLib (some [("app", some [("static_dir", .str "static")])])
          staticFileSuffix (fun _ => some ⟨false⟩)
          ⟨"/static/page.htm", ".htm", 200, false, ""⟩
        = ⟨⟨"/static/page.htm", ".htm", 200, true, ""⟩, some "static/page.htm"⟩ := by
  constructor <;> decide

/-- C10: for every request whose path, without its leading slash, starts with
the static root and whose resolved name is, by a successful stat, a directory,
the interceptor ends with Status 403 and the Context terminated and serves no
file, whatever the extension is. -/
theorem C10_directory_is_rejected (fl : FloatLib) (cfg : Config) (suffix : String)
    (stat : String → Option FileInfo) (context : Context) (f : FileInfo)
    (hroot : stringsHasPrefix (stringsTrimPrefix context.Url "/")
      (Config.String fl cfg "app.static_dir") = true)
    (hstat : stat (staticUrl fl cfg context) = some f)
    (hdir : f.IsDir = true) :
    (StaticHandler fl cfg suffix stat context).context.Status = 403 ∧
      (StaticHandler fl cfg suffix stat context).context.IsEnd = true ∧
      (StaticHandler fl cfg suffix stat context).served = none := by
  have hr := staticUrl_under_root fl cfg context hroot
  by_cases hext : stringsContains suffix context.Ext = false
  · rw [StaticHandler_rejects_ext fl cfg suffix stat context hr hext]
    simp [Context.End]
  · simp [StaticHandler, hr, hext, hstat, hdir, Context.End]

/-- C10 at `/static/subdir`, a directory, requested with an empty extension. -/
theorem C10_directory_is_rejected_witness :
    (StaticHandler sampleFloatLib (some [("app", some [("static_dir", .str "static")])])
        staticFileSuffix (fun p => if p = "static/subdir" then some ⟨true⟩ else none)
        ⟨"/static/subdir", "", 200, false, ""⟩).context.Status = 403 ∧
      (StaticHandler sampleFloatLib (some [("app", some [("static_dir", .str "static")])])
        staticFileSuffix (fun p => if p = "static/subdir" then some ⟨true⟩ else none)
        ⟨"/static/subdir", "", 200, false, ""⟩).context.IsEnd = true ∧
      (StaticHandler sampleFloatLib (some [("app", some [("static_dir", .str "static")])])
        staticFileSuffix (fun p => if p = "static/subdir" then some ⟨true⟩ else none)
        ⟨"/static/subdir", "", 200, false, ""⟩).served = none :=
  C10_directory_is_rejected sampleFloatLib _ staticFileSuffix _
    ⟨"/static/subdir", "", 200, false, ""⟩ ⟨true⟩ (by decide) (by decide) rfl

/-- C11: the interceptor has two kinds of outcome.  Where the resolved name
(the path without its leading slash, `favicon.ico` remapped) does not start
with the static root, the Context is handed on exactly as it came and nothing
is served; where it does, the Context ends complete.  So a Context that was
modified is complete, and for a request arriving with an incomplete Context the
pass-through outcome occurs exactly when the resolved name is not under the
static root. -/
theorem C11_static_passes_or_terminates (fl : FloatLib) (cfg : Config) (suffix : String)
    (stat : String → Option FileInfo) (context : Context) :
    (stringsHasPrefix (staticUrl fl cfg context) (Config.String fl cfg "app.static_dir") = false →
      StaticHandler fl cfg suffix stat context = ⟨context, none⟩) ∧
    (stringsHasPrefix (staticUrl fl cfg context) (Config.String fl cfg "app.static_dir") = true →
      (StaticHandler fl cfg suffix stat context).context.IsEnd = true) ∧
    ((StaticHandler fl cfg suffix stat context).context ≠ context →
      (StaticHandler fl cfg suffix stat context).context.IsEnd = true) ∧
    (context.IsEnd = false →
      ((StaticHandler fl cfg suffix stat context).context = context ↔
        stringsHasPrefix (staticUrl fl cfg context) (Config.String fl cfg "app.static_dir")
          = false)) := by
  have hpass : stringsHasPrefix (staticUrl fl cfg context)
      (Config.String fl cfg "app.static_dir") = false →
      StaticHandler fl cfg suffix stat context = ⟨context, none⟩ := by
    intro h
    simp [StaticHandler, h]
  have hend : stringsHasPrefix (staticUrl fl cfg context)
      (Config.String fl cfg "app.static_dir") = true →
      (StaticHandler fl cfg suffix stat context).context.IsEnd = true := by
    intro h
    unfold StaticHandler
    simp only [h, Bool.true_eq_false, if_false]
    split
    · rfl
    · split
      · split <;> rfl
      · rfl
  refine ⟨hpass, hend, ?_, ?_⟩
  · intro hmod
    cases h : stringsHasPrefix (staticUrl fl cfg context) (Config.String fl cfg "app.static_dir")
    · rw [hpass h] at hmod
      exact absurd rfl hmod
    · exact hend h
  · intro hfresh
    constructor
    · intro hsame
      cases h : stringsHasPrefix (staticUrl fl cfg context)
          (Config.String fl cfg "app.static_dir")
      · rfl
      · have := hend h
        rw [hsame, hfresh] at this
        exact absurd this (by decide)
    · intro h
      rw [hpass h]

/-- C11 at `/login/`, a path outside the static root `static`: the fresh
Context comes back unchanged. -/
theorem C11_static_passes_or_terminates_witness :
    StaticHandler sampleFloatLib (some [("app", some [("static_dir", .str "static")])])
        staticFileSuffix (fun _ => none) ⟨"/login/", "", 200, false, ""⟩
      = ⟨⟨"/login/", "", 200, false, ""⟩, none⟩ :=
  (C11_static_passes_or_terminates sampleFloatLib
    (some [("app", some [("static_dir", .str "static")])]) staticFileSuffix (fun _ => none)
    ⟨"/login/", "", 200, false, ""⟩).1 (by decide)

/-! ## Lemmas on splitting and `path.Join` -/

/-- Splitting distributes over a separator: the pieces of `a`, then those of `b`. -/
theorem splitChars_append_sep (sep : Char) (a b : List Char) :
    splitChars sep (a ++ sep :: b) = splitChars sep a ++ splitChars sep b := by
  induction a with
  | nil =>
    have hb := splitChars_ne_nil sep b
    cases hs : splitChars sep b with
    | nil => exact absurd hs hb
    | cons h t => simp [splitChars, hs]
  | cons c cs ih =>
    have ha := splitChars_ne_nil sep cs
    cases hs : splitChars sep cs with
    | nil => exact absurd hs ha
    | cons h t =>
      rw [hs] at ih
      by_cases hc : c = sep
      · simp [splitChars, ih, hs, hc]
      · simp [splitChars, ih, hs, hc]

/-- Joining the pieces of a split by the separator gives the text back. -/
theorem intercalate_splitChars (sep : Char) (a : List Char) :
    List.intercalate [sep] (splitChars sep a) = a := by
  induction a with
  | nil => rfl
  | cons c cs ih =>
    have ha := splitChars_ne_nil sep cs
    cases hs : splitChars sep cs with
    | nil => exact absurd hs ha
    | cons h t =>
      rw [hs] at ih
      by_cases hc : c = sep
      · subst hc
        simp only [splitChars, hs, if_true]
        cases t with
        | nil =>
          simp [List.intercalate, List.intersperse] at ih ⊢
          exact ih
        | cons t0 ts =>
          simp [List.intercalate, List.intersperse] at ih ⊢
          exact ih
      · simp only [splitChars, hs, hc, if_false]
        cases t with
        | nil =>
          simp [List.intercalate, List.intersperse] at ih ⊢
          exact ih
        | cons t0 ts =>
          simp [List.intercalate, List.intersperse] at ih ⊢
          exact ih

/-- On elements that are neither empty nor `.` nor `..` the element loop of
`path.Clean` writes every element. -/
theorem cleanElems_ordinary (rooted : Bool) (es out : List (List Char))
    (h : ∀ e ∈ es, e ≠ [] ∧ e ≠ ['.'] ∧ e ≠ ['.', '.']) :
    cleanElems rooted es out = es.reverse ++ out := by
  induction es generalizing out with
  | nil => simp [cleanElems]
  | cons e es ih =>
    obtain ⟨h1, h2, h3⟩ := h e (by simp)
    have hrest : ∀ x ∈ es, x ≠ [] ∧ x ≠ ['.'] ∧ x ≠ ['.', '.'] :=
      fun x hx => h x (by simp [hx])
    unfold cleanElems
    rw [if_neg (by simp [h1, h2]), if_neg h3, ih _ hrest]
    simp

/-- On a static root in clean relative form (no empty, `.` or `..` element)
`path.Join` puts `favicon.ico` right behind the root. -/
theorem pathJoin_favicon_of_clean (s : String)
    (h : ∀ e ∈ splitChars '/' s.data, e ≠ [] ∧ e ≠ ['.'] ∧ e ≠ ['.', '.']) :
    pathJoin [s, "favicon.ico"] = String.mk (s.data ++ '/' :: "favicon.ico".data) := by
  obtain ⟨l⟩ := s
  have hfav : splitChars '/' "favicon.ico".data = ["favicon.ico".data] := by decide
  cases l with
  | nil => exact absurd rfl (h [] (by simp [splitChars])).1
  | cons c cs =>
    have hc : c ≠ '/' := by
      intro e
      subst e
      have hne := splitChars_ne_nil '/' cs
      cases hs : splitChars '/' cs with
      | nil => exact absurd hs hne
      | cons x xs =>
        exact absurd rfl (h [] (by simp [splitChars, hs])).1
    have hall : ∀ e ∈ splitChars '/' (c :: cs) ++ splitChars '/' "favicon.ico".data,
        e ≠ [] ∧ e ≠ ['.'] ∧ e ≠ ['.', '.'] := by
      intro e he
      rw [List.mem_append] at he
      rcases he with he | he
      · exact h e he
      · rw [hfav] at he
        simp only [List.mem_singleton] at he
        subst he
        decide
    have hsne : (⟨c :: cs⟩ : String) ≠ "" := by
      intro e
      have hd := congrArg String.data e
      simp at hd
    have hword : splitChars '/' (c :: cs) ++ splitChars '/' "favicon.ico".data ≠ [] := by
      intro e
      exact splitChars_ne_nil '/' (c :: cs) (List.append_eq_nil.mp e).1
    have hdrop : List.dropWhile (fun e => decide (e = "")) [(⟨c :: cs⟩ : String), "favicon.ico"]
        = [⟨c :: cs⟩, "favicon.ico"] := by
      simp [List.dropWhile, hsne]
    have hpne : (⟨c :: cs ++ '/' :: "favicon.ico".data⟩ : String) ≠ "" := by
      intro e
      have hd := congrArg String.data e
      simp at hd
    have hjoin : List.intercalate ['/'] (List.map String.data [⟨c :: cs⟩, "favicon.ico"])
        = c :: cs ++ '/' :: "favicon.ico".data := by
      simp [List.intercalate, List.intersperse]
    unfold pathJoin
    rw [hdrop]
    simp only [hjoin]
    unfold pathClean
    rw [if_neg hpne]
    have hroot : (decide ((c :: cs ++ '/' :: "favicon.ico".data).head? = some '/')) = false := by
      simp [hc]
    simp only [hroot, Bool.false_eq_true, if_false]
    rw [splitChars_append_sep, cleanElems_ordinary false _ [] hall]
    simp only [List.append_nil, List.reverse_reverse]
    rw [if_neg hword, ← splitChars_append_sep, intercalate_splitChars]

/-- A static root in clean relative form stays a prefix of the name
`favicon.ico` is moved to. -/
theorem favicon_under_clean_root (s : String)
    (h : ∀ e ∈ splitChars '/' s.data, e ≠ [] ∧ e ≠ ['.'] ∧ e ≠ ['.', '.']) :
    stringsHasPrefix (pathJoin [s, "favicon.ico"]) s = true := by
  rw [pathJoin_favicon_of_clean s h]
  exact List.isPrefixOf_iff_prefix.mpr (List.prefix_append _ _)

/-- C12, as stated, fails: with `app.static_dir` set to `./static`, `path.Join`
cleans the remapped name to `static/favicon.ico`, which does not start with
`./static`; the request for `/favicon.ico` is passed through, nothing is
served and the Context is not complete.  The same happens with the root `.`,
where the remapped name is `favicon.ico`. -/
theorem C12_unclean_root_counterexample :
    StaticHandler sampleFloatLib (some [("app", some [("static_dir", .str "./static")])])
        staticFileSuffix (fun _ => some ⟨false⟩) ⟨"/favicon.ico", ".ico", 200, false, ""⟩
      = ⟨⟨"/favicon.ico", ".ico", 200, false, ""⟩, none⟩ ∧
    StaticHandler sampleFloatLib (some [("app", some [("static_dir", .str ".")])])
        staticFileSuffix (fun _ => some ⟨false⟩) ⟨"/favicon.ico", ".ico", 200, false, ""⟩
      = ⟨⟨"/favicon.ico", ".ico", 200, false, ""⟩, none⟩ := by
  constructor <;> decide

/-- C12, amended: for every configured `app.static_dir`, a request for
`/favicon.ico` whose extension passes the allow-list test and whose target is
not a directory is remapped to `path.Join(static_dir, "favicon.ico")`.  It is
served from that name, with the Context marked complete, exactly when
`static_dir` is a prefix of the remapped name, and is otherwise passed through
untouched.  `static_dir` is such a prefix, so the request is served, whenever
it is empty or a relative path whose slash-separated elements are all
non-empty and none of them `.` or `..`. -/
theorem C12_favicon_is_served (fl : FloatLib) (cfg : Config) (suffix : String)
    (stat : String → Option FileInfo) (context : Context)
    (hurl : context.Url = "/favicon.ico")
    (hext : stringsContains suffix context.Ext = true)
    (hfile : ∀ f, stat (pathJoin [Config.String fl cfg "app.static_dir", "favicon.ico"]) = some f →
      f.IsDir = false) :
    staticUrl fl cfg context = pathJoin [Config.String fl cfg "app.static_dir", "favicon.ico"] ∧
    (stringsHasPrefix (pathJoin [Config.String fl cfg "app.static_dir", "favicon.ico"])
        (Config.String fl cfg "app.static_dir") = true →
      StaticHandler fl cfg suffix stat context
        = ⟨{ context with IsEnd := true },
            some (pathJoin [Config.String fl cfg "app.static_dir", "favicon.ico"])⟩) ∧
    (stringsHasPrefix (pathJoin [Config.String fl cfg "app.static_dir", "favicon.ico"])
        (Config.String fl cfg "app.static_dir") = false →
      StaticHandler fl cfg suffix stat context = ⟨context, none⟩) ∧
    ((Config.String fl cfg "app.static_dir" = "" ∨
        ∀ e ∈ splitChars '/' (Config.String fl cfg "app.static_dir").data,
          e ≠ [] ∧ e ≠ ['.'] ∧ e ≠ ['.', '.']) →
      StaticHandler fl cfg suffix stat context
        = ⟨{ context with IsEnd := true },
            some (pathJoin [Config.String fl cfg "app.static_dir", "favicon.ico"])⟩) := by
  have htrim : stringsTrimPrefix "/favicon.ico" "/" = "favicon.ico" := by decide
  have hu : staticUrl fl cfg context
      = pathJoin [Config.String fl cfg "app.static_dir", "favicon.ico"] := by
    simp [staticUrl, hurl, htrim]
  have hserve : stringsHasPrefix (pathJoin [Config.String fl cfg "app.static_dir", "favicon.ico"])
        (Config.String fl cfg "app.static_dir") = true →
      StaticHandler fl cfg suffix stat context
        = ⟨{ context with IsEnd := true },
            some (pathJoin [Config.String fl cfg "app.static_dir", "favicon.ico"])⟩ := by
    intro hroot
    unfold StaticHandler
    simp only [hu, hroot, hext, Bool.true_eq_false, if_false]
    cases hs : stat (pathJoin [Config.String fl cfg "app.static_dir", "favicon.ico"]) with
    | none => rfl
    | some f => simp [hfile f hs]
  refine ⟨hu, hserve, ?_, ?_⟩
  · intro hroot
    unfold StaticHandler
    simp only [hu, hroot, if_true]
  · intro hclean
    apply hserve
    rcases hclean with hempty | hord
    · rw [hempty]
      decide
    · exact favicon_under_clean_root _ hord

/-- C12, amended, at the built-in static root `static`. -/
theorem C12_favicon_is_served_witness :
    StaticHandler sampleFloatLib (some [("app", some [("static_dir", .str "static")])])
        staticFileSuffix (fun _ => some ⟨false⟩) ⟨"/favicon.ico", ".ico", 200, false, ""⟩
      = ⟨⟨"/favicon.ico", ".ico", 200, true, ""⟩, some "static/favicon.ico"⟩ :=
  (C12_favicon_is_served sampleFloatLib (some [("app", some [("static_dir", .str "static")])])
    staticFileSuffix (fun _ => some ⟨false⟩) ⟨"/favicon.ico", ".ico", 200, false, ""⟩
    rfl (by decide) (fun f hf => by cases hf; rfl)).2.2.2 (Or.inr (by decide))

/-! ## Claims on keys and on the frame of `Set` -/

/-- The components of the key `s.n`, for `s` and `n` without dots. -/
theorem stringsSplit_two (s n : String) (hs : '.' ∉ s.data) (hn : '.' ∉ n.data) :
    stringsSplit (s ++ "." ++ n) '.' = [s, n] := by
  have hd : (s ++ "." ++ n).data = s.data ++ '.' :: n.data := by
    simp [String.data_append]
  simp [stringsSplit, hd, splitChars_append_sep, splitChars_of_not_mem _ _ hs,
    splitChars_of_not_mem _ _ hn]

/-- The components of the key `s.n.rest`, for `s` and `n` without dots. -/
theorem stringsSplit_three (s n rest : String) (hs : '.' ∉ s.data) (hn : '.' ∉ n.data) :
    stringsSplit (s ++ "." ++ n ++ "." ++ rest) '.' = s :: n :: stringsSplit rest '.' := by
  have hd : (s ++ "." ++ n ++ "." ++ rest).data = s.data ++ '.' :: (n.data ++ '.' :: rest.data) := by
    simp [String.data_append]
  simp [stringsSplit, hd, splitChars_append_sep, splitChars_of_not_mem _ _ hs,
    splitChars_of_not_mem _ _ hn]

/-- C16: only the first two components of a key count.  For every store, all
`s` and `n` without dots, every suffix `rest` and every value, `Set` on
`s.n.rest` has the outcome of `Set` on `s.n` (the same store, or the same
panic), and `String` on `s.n.rest` returns what `String` on `s.n` returns. -/
theorem C16_key_suffix_is_ignored (fl : FloatLib) (cfg : Config) (s n rest : String)
    (value : Value) (hs : '.' ∉ s.data) (hn : '.' ∉ n.data) :
    Config.Set cfg (s ++ "." ++ n ++ "." ++ rest) value = Config.Set cfg (s ++ "." ++ n) value ∧
      Config.String fl cfg (s ++ "." ++ n ++ "." ++ rest) = Config.String fl cfg (s ++ "." ++ n) := by
  have h2 := stringsSplit_two s n hs hn
  have h3 := stringsSplit_three s n rest hs hn
  constructor
  · rw [Set_eq cfg _ s n _ value h3, Set_eq cfg _ s n _ value h2]
  · simp [Config.String, h2, h3]

/-- C16 at the keys `app.server.port` and `app.server` on the nil store. -/
theorem C16_key_suffix_is_ignored_witness :
    Config.Set none "app.server.port" (.int 1) = Config.Set none "app.server" (.int 1) ∧
      Config.String sampleFloatLib none "app.server.port"
        = Config.String sampleFloatLib none "app.server" :=
  C16_key_suffix_is_ignored sampleFloatLib none "app" "server" "port" (.int 1)
    (by decide) (by decide)

/-- Reading the written store at another section and name gives what the
store gave before. -/
theorem lookup_written_ne (cfg : Config) (k0 k1 s n : String) (value : Value)
    (hne : (s, n) ≠ (k0, k1)) :
    Config.lookup (Config.written cfg k0 k1 value) s n = Config.lookup cfg s n := by
  by_cases hs : k0 = s
  · subst hs
    have hn : k1 ≠ n := fun e => hne (by rw [e])
    cases cfg with
    | none =>
      simp [Config.written, Config.sectionOf, Config.lookup, mapAssign, mapIndex, hn]
    | some m =>
      cases hm : mapIndex m k0 with
      | none =>
        simp [Config.written, Config.sectionOf, Config.lookup, hm, mapIndex_mapAssign_self,
          mapIndex, hn]
      | some sec =>
        cases sec with
        | none =>
          simp [Config.written, Config.sectionOf, Config.lookup, hm, mapIndex_mapAssign_self,
            mapIndex, hn]
        | some l =>
          simp [Config.written, Config.sectionOf, Config.lookup, hm, mapIndex_mapAssign_self,
            mapIndex_mapAssign_ne _ _ _ _ hn]
  · cases cfg with
    | none =>
      simp [Config.written, Config.sectionOf, Config.lookup, mapAssign, mapIndex, hs]
    | some m =>
      cases hm : mapIndex m k0 with
      | none =>
        simp [Config.written, Config.sectionOf, Config.lookup, hm,
          mapIndex_mapAssign_ne _ _ _ _ hs]
      | some sec =>
        cases sec with
        | none =>
          simp [Config.written, Config.sectionOf, Config.lookup, hm,
            mapIndex_mapAssign_ne _ _ _ _ hs]
        | some l =>
          simp [Config.written, Config.sectionOf, Config.lookup, hm,
            mapIndex_mapAssign_ne _ _ _ _ hs]

/-- On a store by value, where no two section keys share a map, `Set` changes
only the entry of its own section and name. -/
theorem Set_frame_by_value (fl : FloatLib) (cfg cfg1 : Config) (k s n k2 s2 n2 : String)
    (rest rest2 : List String) (value : Value)
    (hk : stringsSplit k '.' = s :: n :: rest)
    (hk2 : stringsSplit k2 '.' = s2 :: n2 :: rest2)
    (hne : (s2, n2) ≠ (s, n))
    (hset : Config.Set cfg k value = .ok cfg1) :
    Config.String fl cfg1 k2 = Config.String fl cfg k2 := by
  obtain ⟨-, rfl⟩ := (Set_ok_iff cfg _ k s n rest value hk).1 hset
  simp [Config.String, hk2, lookup_written_ne cfg s n s2 n2 value hne]

theorem mapIndex_map_snd {V W : Type} (f : V → W) (m : List (String × V)) (k : String) :
    mapIndex (m.map fun p => (p.1, f p.2)) k = (mapIndex m k).map f := by
  induction m with
  | nil => rfl
  | cons p rest ih =>
    obtain ⟨k0, v⟩ := p
    by_cases hk : k0 = k
    · simp [mapIndex, hk]
    · simp [mapIndex, hk, ih]

/-- Reading the store with shared maps is reading the store by value it shows. -/
theorem String_view (fl : FloatLib) (cfg : SharedConfig) (key : String) :
    Config.String fl (SharedConfig.view cfg) key = SharedConfig.String fl cfg key := by
  unfold Config.String SharedConfig.String
  split
  · rename_i k0 k1 rest hsplit
    cases ho : cfg.outer with
    | none => simp [SharedConfig.view, ho, Config.lookup]
    | some m =>
      simp only [SharedConfig.view, ho, Config.lookup, mapIndex_map_snd]
      cases hm : mapIndex m k0 with
      | none => simp
      | some r =>
        cases r with
        | none => simp
        | some a => simp
  · rfl

/-- An address a section key holds is not the one `make` returns. -/
theorem lt_freshAddress (m : List (String × Option Nat)) (k : String) (a : Nat)
    (h : mapIndex m k = some (some a)) : a < freshAddress m := by
  induction m with
  | nil => simp [mapIndex] at h
  | cons p rest ih =>
    obtain ⟨k0, r⟩ := p
    by_cases hk : k0 = k
    · simp only [mapIndex, hk, if_true, Option.some.injEq] at h
      subst h
      simp only [freshAddress]
      omega
    · simp only [mapIndex, hk, if_false] at h
      have := ih h
      cases r with
      | none => simpa [freshAddress] using this
      | some b =>
        simp only [freshAddress]
        omega

/-- What `Set` does on the store with shared maps, on a key of at least two
components. -/
theorem SharedSet_eq (cfg : SharedConfig) (key k0 k1 : String) (rest : List String)
    (value : Value) (hkey : stringsSplit key '.' = k0 :: k1 :: rest) :
    SharedConfig.Set cfg key value =
      match mapIndex (cfg.outer.getD []) k0 with
      | none =>
        .ok ⟨some (mapAssign (cfg.outer.getD []) k0 (some (freshAddress (cfg.outer.getD [])))),
          Function.update (Function.update cfg.maps (freshAddress (cfg.outer.getD [])) [])
            (freshAddress (cfg.outer.getD [])) [(k1, value)]⟩
      | some none => .error .nilMapAssign
      | some (some a) =>
        .ok ⟨some (cfg.outer.getD []),
          Function.update cfg.maps a (mapAssign (cfg.maps a) k1 value)⟩ := by
  have hm : (match cfg.outer with | none => [] | some m => m) = cfg.outer.getD [] := by
    cases cfg.outer <;> rfl
  unfold SharedConfig.Set
  simp only [hkey, hm]
  cases hs : mapIndex (cfg.outer.getD []) k0 with
  | none => simp [mapIndex_mapAssign_self, mapAssign]
  | some r =>
    cases r with
    | none => simp [hs]
    | some a => simp [hs]

/-- What `String` reads on the store with shared maps, on a key of at least
two components. -/
theorem SharedString_eq (fl : FloatLib) (cfg : SharedConfig) (key k0 k1 : String)
    (rest : List String) (hkey : stringsSplit key '.' = k0 :: k1 :: rest) :
    SharedConfig.String fl cfg key =
      match mapIndex (cfg.outer.getD []) k0 with
      | some (some a) =>
        match mapIndex (cfg.maps a) k1 with
        | none => ""
        | some v => Sprint fl v
      | _ => "" := by
  unfold SharedConfig.String
  simp only [hkey]
  cases ho : cfg.outer with
  | none => simp [mapIndex]
  | some m => simp

/-- On the store a completed `Set(k, v)` leaves, `String(k)` returns the text
of `v`. -/
theorem SharedSet_then_String (fl : FloatLib) (cfg cfg1 : SharedConfig) (k s n : String)
    (rest : List String) (value : Value)
    (hk : stringsSplit k '.' = s :: n :: rest)
    (hset : SharedConfig.Set cfg k value = .ok cfg1) :
    SharedConfig.String fl cfg1 k = Sprint fl value := by
  rw [SharedSet_eq cfg k s n rest value hk] at hset
  rw [SharedString_eq fl cfg1 k s n rest hk]
  cases hs : mapIndex (cfg.outer.getD []) s with
  | none =>
    simp only [hs] at hset
    injection hset with hset
    subst hset
    simp [mapIndex_mapAssign_self, mapIndex]
  | some r =>
    cases r with
    | none =>
      simp only [hs] at hset
      cases hset
    | some a =>
      simp only [hs] at hset
      injection hset with hset
      subst hset
      simp [hs, mapIndex_mapAssign_self]

/-- C18, as stated, fails: section maps are held by reference.  On the store
`Config{"a": m, "b": m}`, in which both section keys hold the one map `m`,
`String("b.x")` is empty; `Set("a.x", "v")` writes into `m`, and `String("b.x")`
then returns `v`, although `(b, x)` differs from `(a, x)`. -/
theorem C18_shared_map_counterexample :
    (("b", "x") : String × String) ≠ ("a", "x") ∧
      SharedConfig.String sampleFloatLib sampleSharedConfig "b.x" = "" ∧
      ∃ cfg1, SharedConfig.Set sampleSharedConfig "a.x" (.str "v") = .ok cfg1 ∧
        SharedConfig.String sampleFloatLib cfg1 "b.x" = "v" :=
  ⟨by decide, rfl, _, rfl, rfl⟩

/-- C18, amended: `Set` changes only the addressed entry of the addressed
section map.  For every store, every key `k` of section `s` and name `n`,
every value, and every key `k2` whose section and name differ from `(s, n)`
and which, when its name is `n`, lies in a section that does not share its
map with section `s`: on the store a completed `Set(k, v)` leaves,
`String(k2)` returns what it returned before, while `String(k)` returns the
text of `v`. -/
theorem C18_Set_frame (fl : FloatLib) (cfg cfg1 : SharedConfig) (k s n k2 s2 n2 : String)
    (rest rest2 : List String) (value : Value)
    (hk : stringsSplit k '.' = s :: n :: rest)
    (hk2 : stringsSplit k2 '.' = s2 :: n2 :: rest2)
    (hne : (s2, n2) ≠ (s, n))
    (halias : n2 = n → ∀ a, ¬ (mapIndex (cfg.outer.getD []) s = some (some a) ∧
      mapIndex (cfg.outer.getD []) s2 = some (some a)))
    (hset : SharedConfig.Set cfg k value = .ok cfg1) :
    SharedConfig.String fl cfg1 k2 = SharedConfig.String fl cfg k2 ∧
      SharedConfig.String fl cfg1 k = Sprint fl value := by
  refine ⟨?_, SharedSet_then_String fl cfg cfg1 k s n rest value hk hset⟩
  rw [SharedSet_eq cfg k s n rest value hk] at hset
  rw [SharedString_eq fl cfg1 k2 s2 n2 rest2 hk2, SharedString_eq fl cfg k2 s2 n2 rest2 hk2]
  cases hs : mapIndex (cfg.outer.getD []) s with
  | none =>
    simp only [hs] at hset
    injection hset with hset
    subst hset
    simp only [Option.getD_some]
    by_cases hss : s = s2
    · subst hss
      have hn : n ≠ n2 := fun e => hne (by rw [e])
      simp [mapIndex_mapAssign_self, hs, mapIndex, hn]
    · rw [mapIndex_mapAssign_ne _ _ _ _ hss]
      cases hs2 : mapIndex (cfg.outer.getD []) s2 with
      | none => rfl
      | some r =>
        cases r with
        | none => rfl
        | some b =>
          have hb : b < freshAddress (cfg.outer.getD []) := lt_freshAddress _ s2 b hs2
          have hbn : b ≠ freshAddress (cfg.outer.getD []) := by omega
          simp [Function.update, hbn]
  | some r =>
    cases r with
    | none =>
      simp only [hs] at hset
      cases hset
    | some a =>
      simp only [hs] at hset
      injection hset with hset
      subst hset
      simp only [Option.getD_some]
      cases hs2 : mapIndex (cfg.outer.getD []) s2 with
      | none => rfl
      | some r2 =>
        cases r2 with
        | none => rfl
        | some b =>
          by_cases hba : b = a
          · subst hba
            have hn : n ≠ n2 := by
              intro e
              exact halias e.symm b ⟨hs, hs2⟩
            simp [Function.update, mapIndex_mapAssign_ne _ _ _ _ hn]
          · simp [Function.update, hba]

/-- C18, amended, on the store `Config{"a": m, "b": m}`: after `Set("a.x", "v")`
the key `b.y`, of another name, reads as before, shared map or not. -/
theorem C18_Set_frame_witness :
    SharedConfig.String sampleFloatLib
        ⟨some [("a", some 0), ("b", some 0)],
          Function.update (fun _ => []) 0 (mapAssign [] "x" (.str "v"))⟩ "b.y"
      = SharedConfig.String sampleFloatLib sampleSharedConfig "b.y" :=
  (C18_Set_frame sampleFloatLib sampleSharedConfig _ "a.x" "a" "x" "b.y" "b" "y" [] []
    (.str "v") (by decide) (by decide) (by decide)
    (fun h => absurd h (by decide)) rfl).1

/-- C19: on a key without a dot the defaulting accessors return the default
and persist nothing.  For every store, dotless key and default: `StringOr`
returns the default, `IntOr` returns the default, the store is left as it
was, and `String` on the key still returns the empty string. -/
theorem C19_dotless_default_not_persisted (fl : FloatLib) (cfg : Config) (key : String)
    (d : String) (i : Int) (hkey : '.' ∉ key.data) :
    Config.StringOr fl cfg key d = .ok (d, cfg) ∧ Config.IntOr fl cfg key i = .ok (i, cfg) ∧
      Config.String fl cfg key = "" := by
  have hsplit := stringsSplit_of_no_dot key hkey
  have hs := String_of_short_key fl cfg key hsplit
  have hset : ∀ v, Config.Set cfg key v = .ok cfg := by
    intro v
    simp [Config.Set, hsplit]
  refine ⟨?_, ?_, hs⟩
  · simp [Config.StringOr, hs, hset]
  · simp [Config.IntOr, Config.Int, hs, Atoi_empty, hset]

/-- C19 at the key `server` with the defaults `"x"` and 5. -/
theorem C19_dotless_default_not_persisted_witness :
    Config.StringOr sampleFloatLib none "server" "x" = .ok ("x", none) ∧
      Config.IntOr sampleFloatLib none "server" 5 = .ok (5, none) ∧
      Config.String sampleFloatLib none "server" = "" :=
  C19_dotless_default_not_persisted sampleFloatLib none "server" "x" 5 (by decide)

/-! ## Claims on the lifecycle controller -/

/-- Once the process has exited, no signal changes it. -/
theorem foldl_catchExitStep_exited (signals : List Signal) (p : Process) (c : Int)
    (h : p.exitCode = some c) : signals.foldl catchExitStep p = p := by
  induction signals with
  | nil => rfl
  | cons s rest ih =>
    have hstep : catchExitStep p s = p := by simp [catchExitStep, h]
    simp [List.foldl, hstep, ih]

/-- From a running process with `k` flushes: without a termination signal the
process stays as it is, with one it ends exited with code 0 after one more
flush. -/
theorem foldl_catchExitStep_running (signals : List Signal) (k : Nat) :
    ((∀ s ∈ signals, s ≠ .SIGINT ∧ s ≠ .SIGTERM) →
      signals.foldl catchExitStep ⟨k, none⟩ = ⟨k, none⟩) ∧
    ((∃ s ∈ signals, s = .SIGINT ∨ s = .SIGTERM) →
      signals.foldl catchExitStep ⟨k, none⟩ = ⟨k + 1, some 0⟩) := by
  induction signals with
  | nil => simp
  | cons s rest ih =>
    cases s with
    | SIGINT =>
      have hstep : catchExitStep ⟨k, none⟩ .SIGINT = ⟨k + 1, some 0⟩ := rfl
      simp [List.foldl, hstep, foldl_catchExitStep_exited rest ⟨k + 1, some 0⟩ 0 rfl]
    | SIGTERM =>
      have hstep : catchExitStep ⟨k, none⟩ .SIGTERM = ⟨k + 1, some 0⟩ := rfl
      simp [List.foldl, hstep, foldl_catchExitStep_exited rest ⟨k + 1, some 0⟩ 0 rfl]
    | other n =>
      have hstep : catchExitStep ⟨k, none⟩ (.other n) = ⟨k, none⟩ := rfl
      simp only [List.foldl, hstep]
      constructor
      · intro h
        exact ih.1 (fun x hx => h x (by simp [hx]))
      · intro h
        obtain ⟨x, hx, hterm⟩ := h
        rw [List.mem_cons] at hx
        rcases hx with hx | hx
        · subst hx
          rcases hterm with e | e <;> cases e
        · exact ih.2 ⟨x, hx, hterm⟩

/-- C13: in every run of `catchExit`, over any sequence of received signals,
`model.SyncAll` is called at most once.  When the sequence holds a SIGINT or
SIGTERM the run ends with exactly one call and exit code 0; otherwise with no
call and the process running.  What arrives after the first such signal does
not change the outcome, so the flush is not entered again. -/
theorem C13_flush_at_most_once (signals : List Signal) :
    (catchExit signals).syncAllCalls ≤ 1 ∧
    ((∃ s ∈ signals, s = .SIGINT ∨ s = .SIGTERM) → catchExit signals = ⟨1, some 0⟩) ∧
    ((∀ s ∈ signals, s ≠ .SIGINT ∧ s ≠ .SIGTERM) → catchExit signals = ⟨0, none⟩) ∧
    (∀ (before later : List Signal) (s : Signal), (s = .SIGINT ∨ s = .SIGTERM) →
      signals = before ++ s :: later → catchExit signals = catchExit (before ++ [s])) := by
  have h := foldl_catchExitStep_running signals 0
  refine ⟨?_, h.2, h.1, ?_⟩
  · by_cases hterm : ∃ s ∈ signals, s = .SIGINT ∨ s = .SIGTERM
    · have := h.2 hterm
      simp only [Nat.zero_add] at this
      simp [catchExit, this]
    · have hnone : ∀ s ∈ signals, s ≠ .SIGINT ∧ s ≠ .SIGTERM := by
        intro s hs
        constructor
        · intro e
          exact hterm ⟨s, hs, Or.inl e⟩
        · intro e
          exact hterm ⟨s, hs, Or.inr e⟩
      simp [catchExit, h.1 hnone]
  · intro before later s hs hsplit
    have h1 : catchExit signals = ⟨1, some 0⟩ :=
      h.2 ⟨s, by simp [hsplit], hs⟩
    have h2 : catchExit (before ++ [s]) = ⟨1, some 0⟩ :=
      (foldl_catchExitStep_running (before ++ [s]) 0).2 ⟨s, by simp, hs⟩
    rw [h1, h2]

/-- C13 on a run that receives SIGINT and then SIGTERM and SIGINT again. -/
theorem C13_flush_at_most_once_witness :
    catchExit [.SIGINT, .SIGTERM, .SIGINT] = ⟨1, some 0⟩ ∧
      catchExit [.SIGINT, .SIGTERM, .SIGINT] = catchExit [.SIGINT] :=
  ⟨(C13_flush_at_most_once [.SIGINT, .SIGTERM, .SIGINT]).2.1 ⟨.SIGINT, by simp, Or.inl rfl⟩,
    (C13_flush_at_most_once [.SIGINT, .SIGTERM, .SIGINT]).2.2.2 [] [.SIGTERM, .SIGINT] .SIGINT
      (Or.inl rfl) rfl⟩

/-! ## Claims on loading -/

theorem decodeMembers_append (pre post : List (String × JsonSection))
    (m : List (String × ConfigSection)) (failed : Bool) :
    decodeMembers (pre ++ post) m failed
      = decodeMembers post (decodeMembers pre m failed).1 (decodeMembers pre m failed).2 := by
  induction pre generalizing m failed with
  | nil => rfl
  | cons kv rest ih =>
    obtain ⟨k, v⟩ := kv
    simp only [List.cons_append, decodeMembers]
    exact ih _ _

/-- Decoding leaves alone every key that no member carries. -/
theorem mapIndex_decodeMembers_of_absent (members : List (String × JsonSection))
    (m : List (String × ConfigSection)) (failed : Bool) (k : String)
    (h : ∀ kv ∈ members, kv.1 ≠ k) :
    mapIndex (decodeMembers members m failed).1 k = mapIndex m k := by
  induction members generalizing m failed with
  | nil => rfl
  | cons kv rest ih =>
    obtain ⟨k0, v⟩ := kv
    have hk : k0 ≠ k := h (k0, v) (by simp)
    simp only [decodeMembers]
    rw [ih _ _ (fun x hx => h x (by simp [hx])), mapIndex_mapAssign_ne _ _ _ _ hk]

/-- Decoding stores every member, the last one of a repeated key: whatever
comes before it and whether or not an error was recorded. -/
theorem mapIndex_decodeMembers_last (before later : List (String × JsonSection))
    (m : List (String × ConfigSection)) (failed : Bool) (k : String) (v : JsonSection)
    (h : ∀ kv ∈ later, kv.1 ≠ k) :
    mapIndex (decodeMembers (before ++ (k, v) :: later) m failed).1 k
      = some (decodeSection v).1 := by
  rw [decodeMembers_append]
  simp only [decodeMembers]
  rw [mapIndex_decodeMembers_of_absent later _ _ k h, mapIndex_mapAssign_self]

/-- Decoding records an error exactly when one was recorded before or some
member is neither an object nor `null`. -/
theorem decodeMembers_failed (members : List (String × JsonSection))
    (m : List (String × ConfigSection)) (failed : Bool) :
    (decodeMembers members m failed).2 = true ↔
      failed = true ∨ ∃ kv ∈ members, kv.2 = JsonSection.other := by
  induction members generalizing m failed with
  | nil => simp [decodeMembers]
  | cons kv rest ih =>
    obtain ⟨k, v⟩ := kv
    simp only [decodeMembers]
    rw [ih]
    cases v <;> simp [decodeSection]

theorem foldl_mapAssign_of_absent (entries : List (String × Value))
    (m : List (String × Value)) (n : String) (h : ∀ e ∈ entries, e.1 ≠ n) :
    mapIndex (entries.foldl (fun m kv => mapAssign m kv.1 kv.2) m) n = mapIndex m n := by
  induction entries generalizing m with
  | nil => rfl
  | cons e rest ih =>
    have hn : e.1 ≠ n := h e (by simp)
    simp only [List.foldl]
    rw [ih _ (fun x hx => h x (by simp [hx])), mapIndex_mapAssign_ne _ _ _ _ hn]

/-- A decoded section holds every entry of the object, the last one of a
repeated name. -/
theorem foldl_mapAssign_last (before later : List (String × Value))
    (m : List (String × Value)) (n : String) (val : Value) (h : ∀ e ∈ later, e.1 ≠ n) :
    mapIndex ((before ++ (n, val) :: later).foldl (fun m kv => mapAssign m kv.1 kv.2) m) n
      = some val := by
  rw [List.foldl_append]
  simp only [List.foldl]
  rw [foldl_mapAssign_of_absent later _ n h, mapIndex_mapAssign_self]

/-- C14, as stated, fails: the text `{"a":{"b":"x"},"c":5,"d":{"e":"y"}}` is
well-formed JSON of the wrong shape; decoding it reports a type error for `c`,
and the store returned with the error holds the entries `a.b` and `d.e` and
the section `c` as a nil map. -/
theorem C14_partial_store_counterexample :
    (NewConfig sampleReadFile sampleParse "config.json").2 = some .unmarshalTypeError ∧
      (NewConfig sampleReadFile sampleParse "config.json").1
        = some [("a", some [("b", .str "x")]), ("c", none), ("d", some [("e", .str "y")])] ∧
      Config.String sampleFloatLib (NewConfig sampleReadFile sampleParse "config.json").1 "a.b"
        = "x" ∧
      Config.String sampleFloatLib (NewConfig sampleReadFile sampleParse "config.json").1 "d.e"
        = "y" := by
  refine ⟨?_, ?_, ?_, ?_⟩ <;> decide

/-- C14, amended: on a file whose content is not valid JSON, or is valid JSON
whose top-level value is neither an object nor `null`, `NewConfig` returns an
error together with the empty (nil) store.  On a file whose content is a JSON
object, `NewConfig` returns an error exactly when some member is neither an
object nor `null`, and the store it returns, with or without the error, is
not nil and holds every member as decoded, the last one of a repeated key:
a member that is `null` or of another kind as a nil section, a member that
is an object as a section with exactly its entries, the last one of a
repeated name; a key that no member carries has no section. -/
theorem C14_malformed_input_store (readFile : String → Option String)
    (parse : String → Option JsonDoc) (fileAbsPath bytes : String)
    (hread : readFile fileAbsPath = some bytes) :
    ((parse bytes = none ∨ parse bytes = some .other) →
      (NewConfig readFile parse fileAbsPath).1 = none ∧
        (NewConfig readFile parse fileAbsPath).2 ≠ none) ∧
    (∀ members, parse bytes = some (.object members) →
      ((NewConfig readFile parse fileAbsPath).2 ≠ none ↔
        ∃ kv ∈ members, kv.2 = JsonSection.other) ∧
      (NewConfig readFile parse fileAbsPath).1 ≠ none ∧
      (∀ (before later : List (String × JsonSection)) (k : String) (v : JsonSection),
        members = before ++ (k, v) :: later → (∀ kv ∈ later, kv.1 ≠ k) →
        ((v = .null ∨ v = .other) →
          Config.sectionOf (NewConfig readFile parse fileAbsPath).1 k = some none) ∧
        (∀ (ebefore elater : List (String × Value)) (n : String) (val : Value),
          v = .object (ebefore ++ (n, val) :: elater) → (∀ e ∈ elater, e.1 ≠ n) →
          Config.lookup (NewConfig readFile parse fileAbsPath).1 k n = some val) ∧
        (∀ (entries : List (String × Value)) (n : String),
          v = .object entries → (∀ e ∈ entries, e.1 ≠ n) →
          Config.lookup (NewConfig readFile parse fileAbsPath).1 k n = none)) ∧
      (∀ k : String, (∀ kv ∈ members, kv.1 ≠ k) →
        Config.sectionOf (NewConfig readFile parse fileAbsPath).1 k = none)) := by
  constructor
  · intro hbad
    rcases hbad with h | h <;> simp [NewConfig, hread, jsonUnmarshal, h]
  · intro members hparse
    have hnew : NewConfig readFile parse fileAbsPath
        = (some (decodeMembers members [] false).1,
            if (decodeMembers members [] false).2 then some .unmarshalTypeError else none) := by
      simp [NewConfig, hread, jsonUnmarshal, hparse]
    rw [hnew]
    refine ⟨?_, by simp, ?_, ?_⟩
    · have hf := decodeMembers_failed members [] false
      cases hd : (decodeMembers members [] false).2
      · rw [hd] at hf
        simp only [Bool.false_eq_true, false_or, false_iff] at hf
        simp only [Bool.false_eq_true, if_false, ne_eq, not_true_eq_false, false_iff]
        exact hf
      · rw [hd] at hf
        simp only [Bool.false_eq_true, false_or, true_iff] at hf
        simp only [if_true, ne_eq]
        exact ⟨fun _ => hf, fun _ => by simp⟩
    · intro before later k v hmem hlast
      have hsec : mapIndex (decodeMembers members [] false).1 k = some (decodeSection v).1 := by
        rw [hmem]
        exact mapIndex_decodeMembers_last before later [] false k v hlast
      refine ⟨?_, ?_, ?_⟩
      · intro hv
        rcases hv with hv | hv <;> subst hv <;> simpa [Config.sectionOf, decodeSection] using hsec
      · intro ebefore elater n val hv hn
        subst hv
        simp only [decodeSection] at hsec
        simp only [Config.lookup, hsec]
        exact foldl_mapAssign_last ebefore elater [] n val hn
      · intro entries n hv hn
        subst hv
        simp only [decodeSection] at hsec
        simp only [Config.lookup, hsec]
        rw [foldl_mapAssign_of_absent entries [] n hn]
        rfl
    · intro k hk
      simp only [Config.sectionOf]
      rw [mapIndex_decodeMembers_of_absent members [] false k hk]
      rfl

/-- C14, amended, at a file holding the truncated text `{"a":` and at the file
holding `{"a":{"b":"x"},"c":5,"d":{"e":"y"}}`: the first gives the nil store
with an error, the second an error with `c` as a nil section and the entry
`d.e` decoded after it. -/
theorem C14_malformed_input_store_witness :
    ((NewConfig sampleReadFile sampleParse "broken.json").1 = none ∧
      (NewConfig sampleReadFile sampleParse "broken.json").2 ≠ none) ∧
    (NewConfig sampleReadFile sampleParse "config.json").2 ≠ none ∧
    Config.sectionOf (NewConfig sampleReadFile sampleParse "config.json").1 "c" = some none ∧
    Config.lookup (NewConfig sampleReadFile sampleParse "config.json").1 "d" "e"
      = some (.str "y") :=
  ⟨(C14_malformed_input_store sampleReadFile sampleParse "broken.json" "\x7b\"a\":"
      (by decide)).1 (Or.inl (by decide)),
    ((C14_malformed_input_store sampleReadFile sampleParse "config.json"
      "\x7b\"a\":\x7b\"b\":\"x\"\x7d,\"c\":5,\"d\":\x7b\"e\":\"y\"\x7d\x7d" (by decide)).2
      [("a", .object [("b", .str "x")]), ("c", .other), ("d", .object [("e", .str "y")])]
      (by decide)).1.2 ⟨("c", .other), by simp, rfl⟩,
    (((C14_malformed_input_store sampleReadFile sampleParse "config.json"
      "\x7b\"a\":\x7b\"b\":\"x\"\x7d,\"c\":5,\"d\":\x7b\"e\":\"y\"\x7d\x7d" (by decide)).2
      [("a", .object [("b", .str "x")]), ("c", .other), ("d", .object [("e", .str "y")])]
      (by decide)).2.2.1 [("a", .object [("b", .str "x")])] [("d", .object [("e", .str "y")])]
      "c" .other rfl (by decide)).1 (Or.inr rfl),
    (((C14_malformed_input_store sampleReadFile sampleParse "config.json"
      "\x7b\"a\":\x7b\"b\":\"x\"\x7d,\"c\":5,\"d\":\x7b\"e\":\"y\"\x7d\x7d" (by decide)).2
      [("a", .object [("b", .str "x")]), ("c", .other), ("d", .object [("e", .str "y")])]
      (by decide)).2.2.1 [("a", .object [("b", .str "x")]), ("c", .other)] []
      "d" (.object [("e", .str "y")]) rfl (by decide)).2.1 [] [] "e" (.str "y") rfl (by decide)⟩

/-! ## Claims on the route table and the recover hook -/

/-- The segments of the path `/article/<id>/<slug>`. -/
theorem stringsSplit_article_slug (id slug : String) (hid : '/' ∉ id.data)
    (hslug : '/' ∉ slug.data) :
    stringsSplit ("/article/" ++ id ++ "/" ++ slug) '/' = ["", "article", id, slug] := by
  have hd : ("/article/" ++ id ++ "/" ++ slug).data
      = [] ++ '/' :: ("article".data ++ '/' :: (id.data ++ '/' :: slug.data)) := by
    simp [String.data_append]
  have ha : splitChars '/' "article".data = ["article".data] := by decide
  have he : splitChars '/' [] = [[]] := rfl
  rw [stringsSplit, hd, splitChars_append_sep, splitChars_append_sep, splitChars_append_sep,
    he, ha, splitChars_of_not_mem _ _ hid, splitChars_of_not_mem _ _ hslug]
  rfl

/-- The segments of the path `/article/<id>`. -/
theorem stringsSplit_article (id : String) (hid : '/' ∉ id.data) :
    stringsSplit ("/article/" ++ id) '/' = ["", "article", id] := by
  have hd : ("/article/" ++ id).data = [] ++ '/' :: ("article".data ++ '/' :: id.data) := by
    simp [String.data_append]
  have ha : splitChars '/' "article".data = ["article".data] := by decide
  have he : splitChars '/' [] = [[]] := rfl
  rw [stringsSplit, hd, splitChars_append_sep, splitChars_append_sep,
    he, ha, splitChars_of_not_mem _ _ hid]
  rfl

/-- C15: by the first-match rule on the routes of `registerHomeHandler`, for
all non-empty, slash-free `id` and `slug` the request `GET /article/<id>/<slug>`
goes to `handler.Article` with `id` and `slug` bound, and `GET /article/<id>`
matches no home route, so control passes to NotFound. -/
theorem C15_article_route (id slug : String) (_hid0 : id ≠ "") (_hslug0 : slug ≠ "")
    (hid : '/' ∉ id.data) (hslug : '/' ∉ slug.data) :
    dispatch registerHomeHandler "GET" ("/article/" ++ id ++ "/" ++ slug)
        = some (.Article, [("id", id), ("slug", slug)]) ∧
      dispatch registerHomeHandler "GET" ("/article/" ++ id) = none := by
  have h4 := stringsSplit_article_slug id slug hid hslug
  have h3 := stringsSplit_article id hid
  constructor
  · simp only [registerHomeHandler, dispatch, Route.matches, h4]
    rfl
  · simp only [registerHomeHandler, dispatch, Route.matches, h3]
    rfl

/-- C15 at `/article/42/hello-world` and `/article/42`. -/
theorem C15_article_route_witness :
    dispatch registerHomeHandler "GET" "/article/42/hello-world"
        = some (.Article, [("id", "42"), ("slug", "hello-world")]) ∧
      dispatch registerHomeHandler "GET" "/article/42" = none :=
  C15_article_route "42" "hello-world" (by decide) (by decide) (by decide) (by decide)

/-- C17: without the template `error/error.html` the recover hook sets the body
to `<pre>`, the original body, a newline, the stack trace and `</pre>`, and
then marks the Context complete; with the template, too, the hook ends with
the Context marked complete. -/
theorem C17_recover_fallback_body (hasTemplate : Bool)
    (render : String → String → Context → Context) (debugStack : Nat → String)
    (context : Context) :
    (hasTemplate = false →
      (RecoverHandler hasTemplate render debugStack context).context.Body
          = "<pre>" ++ context.Body ++ "\n" ++ debugStack 91 ++ "</pre>" ∧
        (RecoverHandler hasTemplate render debugStack context).context
          = Context.End { context with
              Body := "<pre>" ++ context.Body ++ "\n" ++ debugStack 91 ++ "</pre>" }) ∧
      (RecoverHandler hasTemplate render debugStack context).context.IsEnd = true := by
  constructor
  · intro h
    subst h
    constructor <;> rfl
  · cases hasTemplate <;> rfl

/-- C17 on the body `boom` and the stack `trace`. -/
theorem C17_recover_fallback_body_witness :
    (RecoverHandler false (fun _ _ c => c) (fun _ => "trace")
        ⟨"/", "", 200, false, "boom"⟩).context
      = ⟨"/", "", 200, true, "<pre>boom\ntrace</pre>"⟩ :=
  ((C17_recover_fallback_body false (fun _ _ c => c) (fun _ => "trace")
    ⟨"/", "", 200, false, "boom"⟩).1 rfl).2
